import Mathlib

/-!
Verification of the recurrence scheduling engine of the DispatchTodoApp
repository.

The embedding covers:
 - the recurrence rule algebra (`getNextTaskRecurrenceDate`,
   `parseTaskCustomRecurrenceRule`, `serializeTaskCustomRecurrenceRule`);
   the module `src/lib/task-recurrence.ts` that implements it is not part
   of the provided sources (only its import sites are), so those
   definitions are modelled from the specification document (section 4.1),
   and are marked as such in their doc comments;
 - the legacy migration step, the reconciliation engine
   (`src/lib/task-recurrence-preview.ts`, server half) and the rollover
   step (`src/lib/task-recurrence-rollover.ts`), embedded as pure state
   transformers over an explicit database value;
 - the create/update API handlers for recurrence series
   (`src/auth.ts`, the `/api/recurrences` route handlers), embedded over
   an explicit representation of the parsed JSON request body.

Conventions of the embedding:
 - ISO `YYYY-MM-DD` date strings are represented by the `CalDate`
   structure; lexicographic comparison of the fixed-width zero-padded
   strings coincides with lexicographic comparison of the
   (year, month, day) triples, which is the order `dlt` / `dle` below.
 - A nullable date column that may also hold a non-date string is
   represented as `Option CalDate`; in every write path of this code base
   the column is either NULL or a validated `YYYY-MM-DD` string, so the
   ISO-format regex test of the source corresponds to `Option.isSome`.
 - The wall-clock timestamps (`new Date().toISOString()`) written into
   `createdAt` / `updatedAt` / `recurrenceProcessedAt` columns are
   threaded as an explicit `now : String` parameter; none of the verified
   properties depend on their values.
 - Row insertion always succeeds (the defensive `if (!createdSeries)`
   bail-out of the source cannot fire); fresh primary keys are drawn from
   explicit counters in the database value.
-/

namespace Dispatch

/-! ## Calendar dates -/

/-- A calendar date, standing for the ISO string `YYYY-MM-DD`. -/
structure CalDate where
  y : Nat
  m : Nat
  d : Nat
deriving DecidableEq, Repr

/-- Strict lexicographic order on dates: the order induced by `<` on the
ISO strings (fixed-width, zero-padded, so string order is componentwise
lexicographic order). -/
def dlt (a b : CalDate) : Prop :=
  a.y < b.y ∨ (a.y = b.y ∧ (a.m < b.m ∨ (a.m = b.m ∧ a.d < b.d)))

/-- Non-strict lexicographic order on dates (`<=` on the ISO strings). -/
def dle (a b : CalDate) : Prop :=
  dlt a b ∨ a = b

instance (a b : CalDate) : Decidable (dlt a b) := by
  unfold dlt; infer_instance

instance (a b : CalDate) : Decidable (dle a b) := by
  unfold dle; infer_instance

/-! ## The recurrence rule algebra

The module `src/lib/task-recurrence.ts` is not among the provided source
files; the following definitions are modelled from the specification,
section 4.1 ("Recurrence Rule Algebra"). -/

/-- Gregorian leap-year test. -/
def isLeap (y : Nat) : Bool :=
  decide ((y % 4 = 0 ∧ y % 100 ≠ 0) ∨ y % 400 = 0)

/-- Number of days of month `m` of year `y` (months outside 1..12 are
normalized away by the date-stepping functions; they get the default 31). -/
def daysInMonth (y m : Nat) : Nat :=
  if m = 2 then (if isLeap y then 29 else 28)
  else if m = 4 ∨ m = 6 ∨ m = 9 ∨ m = 11 then 30
  else 31

/-- The calendar day after `x`. -/
def nextDay (x : CalDate) : CalDate :=
  if x.d < daysInMonth x.y x.m then ⟨x.y, x.m, x.d + 1⟩
  else if x.m < 12 then ⟨x.y, x.m + 1, 1⟩
  else ⟨x.y + 1, 1, 1⟩

/-- `n` calendar days after `x`. -/
def addDays (x : CalDate) : Nat → CalDate
  | 0 => x
  | n + 1 => nextDay (addDays x n)

/-- `n` calendar months after `x`, with the day-of-month clamped to the
last valid day of the target month (spec 4.1: "monthly adds 1 calendar
month (clamped to the last valid day of the target month)"). -/
def addMonthsClamped (x : CalDate) (n : Nat) : CalDate :=
  let t := x.m - 1 + n
  let y2 := x.y + t / 12
  let m2 := t % 12 + 1
  ⟨y2, m2, min x.d (daysInMonth y2 m2)⟩

/-! ## Enumerated column values -/

/-- `task.status`. `open_` stands for the string `"open"`. -/
inductive TaskStatus
  | open_
  | in_progress
  | done
deriving DecidableEq, Repr

/-- `task.priority` / `recurrence_series.priority`. -/
inductive Priority
  | low
  | medium
  | high
deriving DecidableEq, Repr

/-- `recurrenceType` column values (`"none"` is only possible on tasks). -/
inductive RType
  | none
  | daily
  | weekly
  | monthly
  | custom
deriving DecidableEq, Repr

/-- `recurrenceBehavior` column values. -/
inductive Behavior
  | after_completion
  | duplicate_on_schedule
deriving DecidableEq, Repr

/-- Unit of a custom recurrence rule. -/
inductive RUnit
  | day
  | week
  | month
deriving DecidableEq, Repr

/-- A parsed custom recurrence rule (spec 4.1: integer `interval` in
[1,365] and `unit` in day/week/month). -/
structure CustomRule where
  interval : Nat
  unit : RUnit
deriving DecidableEq, Repr

/-- Content of a `recurrenceRule` text column.  The concrete string
encoding lives in the absent `task-recurrence.ts` module; the embedding
abstracts a stored string as either one that parses to a custom rule
(`valid`) or one that does not (`malformed`). -/
inductive StoredRule
  | valid (interval : Nat) (unit : RUnit)
  | malformed
deriving DecidableEq, Repr

/-- Modelled from the spec (4.1), the parsing half of the absent
`task-recurrence.ts` module applied to a stored `recurrenceRule` column:
a stored rule yields a custom rule exactly when it is a well-formed
encoding with `interval` in [1,365]; `NULL` and malformed strings yield
none. -/
def parseStoredRule : Option StoredRule → Option CustomRule
  | some (StoredRule.valid i u) =>
      if 1 ≤ i ∧ i ≤ 365 then some ⟨i, u⟩ else none
  | _ => Option.none

/-- Modelled from the spec (4.1): `getNextTaskRecurrenceDate` of the
absent `task-recurrence.ts` module — daily adds 1 day, weekly 7 days,
monthly one clamped calendar month, custom adds `interval` units of
`unit`; returns none for a missing/malformed rule on a custom kind.  The
engine never applies it to kind `"none"` (series kinds exclude it and
migration filters it out); that case is modelled as none. -/
def getNextTaskRecurrenceDate (anchor : CalDate) (k : RType)
    (rule : Option StoredRule) : Option CalDate :=
  match k with
  | RType.daily => some (addDays anchor 1)
  | RType.weekly => some (addDays anchor 7)
  | RType.monthly => some (addMonthsClamped anchor 1)
  | RType.custom =>
      match parseStoredRule rule with
      | Option.none => Option.none
      | some r =>
          match r.unit with
          | RUnit.day => some (addDays anchor r.interval)
          | RUnit.week => some (addDays anchor (7 * r.interval))
          | RUnit.month => some (addMonthsClamped anchor r.interval)
  | RType.none => Option.none

/-! ## Database rows and state -/

/-- A row of the `task` table (the columns this core reads or writes). -/
structure TaskRow where
  id : Nat
  userId : Nat
  projectId : Option Nat
  title : String
  description : Option String
  status : TaskStatus
  priority : Priority
  dueDate : Option CalDate
  recurrenceType : RType
  recurrenceBehavior : Behavior
  recurrenceRule : Option StoredRule
  recurrenceSeriesId : Option Nat
  recurrenceProcessedAt : Option String
  deletedAt : Option String
  createdAt : String
  updatedAt : String
deriving DecidableEq, Repr

/-- A row of the `recurrence_series` table. -/
structure SeriesRow where
  id : Nat
  userId : Nat
  projectId : Option Nat
  title : String
  description : Option String
  priority : Priority
  recurrenceType : RType
  recurrenceBehavior : Behavior
  recurrenceRule : Option StoredRule
  nextDueDate : CalDate
  active : Bool
  deletedAt : Option String
  createdAt : String
  updatedAt : String
deriving DecidableEq, Repr

/-- The database state the engine reads and writes, with fresh-id
counters for the two tables. -/
structure Db where
  tasks : List TaskRow
  series : List SeriesRow
  nextTaskId : Nat
  nextSeriesId : Nat
deriving DecidableEq, Repr

/-! ## Legacy migration (`migrateLegacyTaskRecurrencesForUser`) -/

/-- The candidate filter of the legacy-rows query (preview.ts lines
116-123): owned by the user, not soft-deleted, no series link, inline
recurrence kind other than `"none"`. -/
def isLegacyCandidate (u : Nat) (t : TaskRow) : Bool :=
  decide (t.userId = u ∧ t.deletedAt = Option.none ∧
    t.recurrenceSeriesId = Option.none ∧ t.recurrenceType ≠ RType.none)

/-- The snapshot the migration loop iterates over. -/
def legacyRows (u : Nat) (db : Db) : List TaskRow :=
  db.tasks.filter (isLegacyCandidate u)

/-- The series row the migration inserts for one legacy task row
(preview.ts lines 143-158). -/
def mkMigratedSeries (today : CalDate) (now : String) (sid : Nat)
    (row : TaskRow) : SeriesRow :=
  let dueAnchor := match row.dueDate with
    | some d => d
    | Option.none => today
  let completionAnchor := if dlt today dueAnchor then dueAnchor else today
  let nextDueDate :=
    if row.status = TaskStatus.done then
      (getNextTaskRecurrenceDate completionAnchor row.recurrenceType
        row.recurrenceRule).getD completionAnchor
    else dueAnchor
  { id := sid
    userId := row.userId
    projectId := row.projectId
    title := row.title
    description := row.description
    priority := row.priority
    recurrenceType := row.recurrenceType
    recurrenceBehavior := row.recurrenceBehavior
    recurrenceRule := row.recurrenceRule
    nextDueDate := nextDueDate
    active := true
    deletedAt := Option.none
    createdAt := now
    updatedAt := now }

/-- The task update performed after the series insert (preview.ts lines
165-175): link the task to the series and clear the inline fields. -/
def migratedTaskPatch (now : String) (sid : Nat) (row : TaskRow)
    (t : TaskRow) : TaskRow :=
  { t with
    recurrenceSeriesId := some sid
    recurrenceType := RType.none
    recurrenceBehavior := Behavior.after_completion
    recurrenceRule := Option.none
    recurrenceProcessedAt :=
      if row.status = TaskStatus.done then some now else Option.none
    updatedAt := now }

/-- One iteration of the migration loop (preview.ts lines 125-176). -/
def migrateStep (today : CalDate) (now : String) (db : Db)
    (row : TaskRow) : Db :=
  if row.recurrenceType = RType.none then db
  else
    let sNew := mkMigratedSeries today now db.nextSeriesId row
    let db1 : Db :=
      { db with
        series := db.series ++ [sNew]
        nextSeriesId := db.nextSeriesId + 1 }
    { db1 with
      tasks := db1.tasks.map (fun t =>
        if t.id = row.id then migratedTaskPatch now sNew.id row t else t) }

/-- `migrateLegacyTaskRecurrencesForUser` (preview.ts lines 100-177). -/
def migrateLegacyTaskRecurrencesForUser (u : Nat) (today : CalDate)
    (now : String) (db : Db) : Db :=
  (legacyRows u db).foldl (migrateStep today now) db

/-! ## Reconciliation (`syncRecurrenceSeriesForUser`) -/

/-- `hasOutstandingInstance` (preview.ts lines 179-193). -/
def hasOutstandingInstance (sid : Nat) (db : Db) : Bool :=
  db.tasks.any (fun t =>
    decide (t.recurrenceSeriesId = some sid ∧ t.deletedAt = Option.none ∧
      t.status ≠ TaskStatus.done))

/-- `hasMaterializedDueDate` (preview.ts lines 195-209). -/
def hasMaterializedDueDate (sid : Nat) (dueDate : CalDate) (db : Db) : Bool :=
  db.tasks.any (fun t =>
    decide (t.recurrenceSeriesId = some sid ∧ t.dueDate = some dueDate ∧
      t.deletedAt = Option.none))

/-- The task row inserted by `materializeSeries` (preview.ts lines
211-229). -/
def mkInstance (s : SeriesRow) (dueDate : CalDate) (now : String)
    (tid : Nat) : TaskRow :=
  { id := tid
    userId := s.userId
    projectId := s.projectId
    title := s.title
    description := s.description
    status := TaskStatus.open_
    priority := s.priority
    dueDate := some dueDate
    recurrenceType := RType.none
    recurrenceBehavior := Behavior.after_completion
    recurrenceRule := Option.none
    recurrenceSeriesId := some s.id
    recurrenceProcessedAt := Option.none
    deletedAt := Option.none
    createdAt := now
    updatedAt := now }

/-- `materializeSeries` (preview.ts lines 211-229). -/
def materializeSeries (s : SeriesRow) (dueDate : CalDate) (now : String)
    (db : Db) : Db :=
  { db with
    tasks := db.tasks ++ [mkInstance s dueDate now db.nextTaskId]
    nextTaskId := db.nextTaskId + 1 }

/-- The bounded catch-up loop of the `duplicate_on_schedule` branch
(preview.ts lines 271-287), parameterized by the remaining iteration
budget; called with budget 500. -/
def dupCatchUp (s : SeriesRow) (today : CalDate) (now : String) :
    Nat → CalDate → Db → CalDate × Db
  | 0, cursor, db => (cursor, db)
  | fuel + 1, cursor, db =>
      if dlt today cursor then (cursor, db)
      else
        let db1 :=
          if hasMaterializedDueDate s.id cursor db then db
          else materializeSeries s cursor now db
        match getNextTaskRecurrenceDate cursor s.recurrenceType
            s.recurrenceRule with
        | Option.none => (cursor, db1)
        | some next =>
            if next = cursor then (cursor, db1)
            else dupCatchUp s today now fuel next db1

/-- Processing of one selected series row (preview.ts lines 257-295). -/
def processSeries (today : CalDate) (now : String) (db : Db)
    (s : SeriesRow) : Db :=
  if s.recurrenceBehavior = Behavior.after_completion then
    if hasOutstandingInstance s.id db then db
    else if hasMaterializedDueDate s.id s.nextDueDate db then db
    else materializeSeries s s.nextDueDate now db
  else
    let r := dupCatchUp s today now 500 s.nextDueDate db
    if r.1 = s.nextDueDate then r.2
    else
      { r.2 with
        series := r.2.series.map (fun x =>
          if x.id = s.id then { x with nextDueDate := r.1, updatedAt := now }
          else x) }

/-- The series selection of the sync pass (preview.ts lines 248-255):
the user's non-deleted, active series with `nextDueDate <= today`. -/
def isSelectedSeries (u : Nat) (today : CalDate) (s : SeriesRow) : Bool :=
  decide (s.userId = u ∧ s.deletedAt = Option.none ∧ s.active = true ∧
    dle s.nextDueDate today)

/-- `syncRecurrenceSeriesForUser` (preview.ts lines 231-296): migration,
then the per-series reconciliation pass over the selected series. -/
def syncRecurrenceSeriesForUser (u : Nat) (today : CalDate) (now : String)
    (db : Db) : Db :=
  let db1 := migrateLegacyTaskRecurrencesForUser u today now db
  ((db1.series.filter (isSelectedSeries u today)).foldl
    (processSeries today now) db1)

/-! ## Rollover (`releaseDueRecurringTasksForUser`) -/

/-- The update filter of the rollover bulk update (rollover.ts lines
24-33). -/
def rolloverCond (u : Nat) (today : CalDate) (t : TaskRow) : Bool :=
  decide (t.userId = u ∧ t.deletedAt = Option.none ∧
      t.status = TaskStatus.done ∧ t.recurrenceType ≠ RType.none) &&
    (match t.dueDate with
      | some d => decide (dle d today)
      | Option.none => false)

/-- `releaseDueRecurringTasksForUser` (rollover.ts lines 14-34). -/
def releaseDueRecurringTasksForUser (u : Nat) (today : CalDate)
    (now : String) (db : Db) : Db :=
  { db with
    tasks := db.tasks.map (fun t =>
      if rolloverCond u today t then
        { t with status := TaskStatus.open_, updatedAt := now }
      else t) }

/-! ## The `/api/recurrences` create and update handlers (`auth.ts`)

A parsed JSON request body is embedded field by field: each field is
either absent (`undef`), JSON null (`nullv`), present with a value of
the type the handler expects (`val`), or present with a value of any
other JSON type (`wrongType`). -/

/-- One field of a parsed JSON body. -/
inductive FieldV (α : Type)
  | undef
  | nullv
  | wrongType
  | val (a : α)
deriving DecidableEq

/-- Unit member of a custom-rule input object; `otherUnit` stands for any
string other than day/week/month (or a non-string). -/
inductive UnitInput
  | day
  | week
  | month
  | otherUnit
deriving DecidableEq

/-- A JSON value offered as a custom recurrence rule: an object carrying
an integer `interval` and a `unit` member, or any other shape (including
objects whose `interval` is not an integer). -/
inductive RuleInput
  | obj (interval : Int) (unit : UnitInput)
  | notObj
deriving DecidableEq

/-- The `nextDueDate` body field: absent, null, a non-string, a string
that fails the `YYYY-MM-DD` regex, or a well-formed date string. -/
inductive NdInput
  | undef
  | nullv
  | notStr
  | nonIso
  | iso (d : CalDate)
deriving DecidableEq

/-- The series recurrence kinds accepted by `isSeriesType`. -/
inductive SType
  | daily
  | weekly
  | monthly
  | custom
deriving DecidableEq

def SType.toRType : SType → RType
  | SType.daily => RType.daily
  | SType.weekly => RType.weekly
  | SType.monthly => RType.monthly
  | SType.custom => RType.custom

/-- A parsed request body for the create/update recurrence handlers. -/
structure SeriesBody where
  title : FieldV String
  description : FieldV String
  priority : FieldV Priority
  projectId : FieldV Nat
  recurrenceType : FieldV SType
  recurrenceBehavior : FieldV Behavior
  recurrenceRule : FieldV RuleInput
  nextDueDate : NdInput
  active : FieldV Bool
deriving DecidableEq

/-- A row of the `project` table (only the columns the handlers read). -/
structure ProjectRow where
  id : Nat
  userId : Nat
deriving DecidableEq

/-- A handler outcome: a 2xx response with the resulting database state,
or an error response (4xx) together with the state at the time of the
early return — every error return of the source happens before any
write, so the carried state is the unmodified input state. -/
inductive HRes
  | ok (db : Db)
  | err (db : Db) (msg : String)
deriving DecidableEq

/-- Modelled from the spec (4.1): `parseTaskCustomRecurrenceRule` of the
absent `task-recurrence.ts` module, applied to a raw body field — only
an object with integer `interval` in [1,365] and `unit` in
day/week/month is accepted; everything else (absent, null, other shapes,
out-of-range interval, unknown unit) yields none. -/
def parseTaskCustomRecurrenceRule : FieldV RuleInput → Option CustomRule
  | FieldV.val (RuleInput.obj i u) =>
      if 1 ≤ i ∧ i ≤ 365 then
        match u with
        | UnitInput.day => some ⟨i.toNat, RUnit.day⟩
        | UnitInput.week => some ⟨i.toNat, RUnit.week⟩
        | UnitInput.month => some ⟨i.toNat, RUnit.month⟩
        | UnitInput.otherUnit => Option.none
      else Option.none
  | _ => Option.none

/-- Modelled from the spec (4.1): `serializeTaskCustomRecurrenceRule`,
the canonical encoding of a parsed rule; the string encoding itself is
abstracted, so serialization lands in `StoredRule.valid`. -/
def serializeTaskCustomRecurrenceRule (r : CustomRule) : StoredRule :=
  StoredRule.valid r.interval r.unit

/-- First-error chaining of sequential validation checks. -/
def firstError : Option String → Option String → Option String
  | some m, _ => some m
  | Option.none, r => r

def postTitleError : FieldV String → Option String
  | FieldV.val t =>
      if t.trim.length = 0 then
        some "title is required and must be a non-empty string"
      else if 500 < t.length then some "title must be at most 500 characters"
      else Option.none
  | _ => some "title is required and must be a non-empty string"

def descriptionError : FieldV String → Option String
  | FieldV.undef => Option.none
  | FieldV.val s =>
      if 5000 < s.length then
        some "description must be at most 5000 characters"
      else Option.none
  | _ => some "description must be a string"

def priorityError : FieldV Priority → Option String
  | FieldV.undef => Option.none
  | FieldV.val _ => Option.none
  | _ => some "Invalid priority. Must be one of: low, medium, high"

def projectIdTypeError : FieldV Nat → Option String
  | FieldV.wrongType => some "projectId must be a string or null"
  | _ => Option.none

def postTypeError : FieldV SType → Option String
  | FieldV.val _ => Option.none
  | _ => some "recurrenceType must be one of: daily, weekly, monthly, custom"

def behaviorError : FieldV Behavior → Option String
  | FieldV.undef => Option.none
  | FieldV.val _ => Option.none
  | _ =>
      some "recurrenceBehavior must be one of: after_completion, duplicate_on_schedule"

def postNextDueDateError : NdInput → Option String
  | NdInput.iso _ => Option.none
  | NdInput.nonIso => some "nextDueDate must be a YYYY-MM-DD date"
  | _ => some "nextDueDate is required and must be an ISO date string"

def activeError : FieldV Bool → Option String
  | FieldV.undef => Option.none
  | FieldV.val _ => Option.none
  | _ => some "active must be a boolean"

/-- The up-front validation chain of `POST /api/recurrences`
(auth.ts lines 336-371), in source order. -/
def postBasicError (body : SeriesBody) : Option String :=
  firstError (postTitleError body.title)
    (firstError (descriptionError body.description)
      (firstError (priorityError body.priority)
        (firstError (projectIdTypeError body.projectId)
          (firstError (postTypeError body.recurrenceType)
            (firstError (behaviorError body.recurrenceBehavior)
              (firstError (postNextDueDateError body.nextDueDate)
                (activeError body.active)))))))

/-- The projectId resolution of both handlers (auth.ts lines 373-385 and
190-202): null clears the project, an id must belong to the user. -/
def resolveProject (u : Nat) (f : FieldV Nat) (projects : List ProjectRow) :
    Except String (Option Nat) :=
  match f with
  | FieldV.nullv => Except.ok Option.none
  | FieldV.undef => Except.ok Option.none
  | FieldV.val pid =>
      if projects.any (fun p => decide (p.id = pid ∧ p.userId = u)) then
        Except.ok (some pid)
      else Except.error "projectId does not match an existing project"
  | FieldV.wrongType => Except.error "projectId must be a string or null"

/-- The rule resolution of the POST handler (auth.ts lines 388-401). -/
def postRuleResolve (body : SeriesBody) : Except String (Option StoredRule) :=
  if body.recurrenceType = FieldV.val SType.custom then
    match parseTaskCustomRecurrenceRule body.recurrenceRule with
    | Option.none =>
        Except.error
          "recurrenceRule is required for custom recurrence and must include interval (1-365) and unit (day|week|month)"
    | some r => Except.ok (some (serializeTaskCustomRecurrenceRule r))
  else if body.recurrenceRule ≠ FieldV.undef ∧ body.recurrenceRule ≠ FieldV.nullv then
    Except.error "recurrenceRule can only be set when recurrenceType is custom"
  else Except.ok Option.none

def fieldValD {α : Type} (dflt : α) : FieldV α → α
  | FieldV.val a => a
  | _ => dflt

/-- The series row inserted by the POST handler (auth.ts lines 403-420).
The extractor defaults are unreachable once validation has passed. -/
def mkPostSeries (u : Nat) (body : SeriesBody) (pid : Option Nat)
    (rule : Option StoredRule) (now : String) (sid : Nat) : SeriesRow :=
  { id := sid
    userId := u
    projectId := pid
    title := (fieldValD "" body.title).trim
    description :=
      match body.description with
      | FieldV.val s => some s
      | _ => Option.none
    priority := fieldValD Priority.medium body.priority
    recurrenceType := (fieldValD SType.daily body.recurrenceType).toRType
    recurrenceBehavior := fieldValD Behavior.after_completion body.recurrenceBehavior
    recurrenceRule := rule
    nextDueDate :=
      match body.nextDueDate with
      | NdInput.iso d => d
      | _ => ⟨0, 0, 0⟩
    active := fieldValD true body.active
    deletedAt := Option.none
    createdAt := now
    updatedAt := now }

/-- `POST /api/recurrences` (auth.ts lines 316-423). -/
def postRecurrence (u : Nat) (body : SeriesBody) (projects : List ProjectRow)
    (now : String) (db : Db) : HRes :=
  match postBasicError body with
  | some m => HRes.err db m
  | Option.none =>
      match resolveProject u body.projectId projects with
      | Except.error m => HRes.err db m
      | Except.ok pid =>
          match postRuleResolve body with
          | Except.error m => HRes.err db m
          | Except.ok rule =>
              HRes.ok
                { db with
                  series :=
                    db.series ++ [mkPostSeries u body pid rule now db.nextSeriesId]
                  nextSeriesId := db.nextSeriesId + 1 }

def putTitleError : FieldV String → Option String
  | FieldV.undef => Option.none
  | FieldV.val t =>
      if t.trim.length = 0 then some "title must be a non-empty string"
      else if 500 < t.length then some "title must be at most 500 characters"
      else Option.none
  | _ => some "title must be a non-empty string"

def putTypeError : FieldV SType → Option String
  | FieldV.undef => Option.none
  | FieldV.val _ => Option.none
  | _ => some "recurrenceType must be one of: daily, weekly, monthly, custom"

def putNextDueDateError : NdInput → Option String
  | NdInput.undef => Option.none
  | NdInput.iso _ => Option.none
  | NdInput.nonIso => some "nextDueDate must be a YYYY-MM-DD date"
  | _ => some "nextDueDate must be an ISO date string"

/-- The up-front validation chain of `PUT /api/recurrences/[id]`
(auth.ts lines 144-179), in source order. -/
def putBasicError (body : SeriesBody) : Option String :=
  firstError (putTitleError body.title)
    (firstError (descriptionError body.description)
      (firstError (priorityError body.priority)
        (firstError (projectIdTypeError body.projectId)
          (firstError (putTypeError body.recurrenceType)
            (firstError (behaviorError body.recurrenceBehavior)
              (firstError (putNextDueDateError body.nextDueDate)
                (activeError body.active)))))))

/-- The field updates applied to the matched series row by the PUT
handler (auth.ts lines 236-251). -/
def putPatch (body : SeriesBody) (pid : Option Nat) (nextType : RType)
    (finalRule : Option StoredRule) (now : String) (x : SeriesRow) : SeriesRow :=
  { x with
    title :=
      if body.title ≠ FieldV.undef then (fieldValD "" body.title).trim
      else x.title
    description :=
      if body.description ≠ FieldV.undef then
        (match body.description with
          | FieldV.val s => some s
          | _ => Option.none)
      else x.description
    priority :=
      if body.priority ≠ FieldV.undef then fieldValD Priority.medium body.priority
      else x.priority
    projectId := if body.projectId ≠ FieldV.undef then pid else x.projectId
    recurrenceType :=
      if body.recurrenceType ≠ FieldV.undef then nextType else x.recurrenceType
    recurrenceBehavior :=
      if body.recurrenceBehavior ≠ FieldV.undef then
        fieldValD Behavior.after_completion body.recurrenceBehavior
      else x.recurrenceBehavior
    recurrenceRule :=
      if body.recurrenceRule ≠ FieldV.undef ∨ body.recurrenceType ≠ FieldV.undef then
        finalRule
      else x.recurrenceRule
    nextDueDate :=
      match body.nextDueDate with
      | NdInput.iso d => d
      | _ => x.nextDueDate
    active :=
      if body.active ≠ FieldV.undef then fieldValD true body.active else x.active
    updatedAt := now }

/-- Tail of the PUT handler after the rule field has been resolved to
`nextRule0` (auth.ts lines 226-253): the custom-kind consistency checks
followed by the row update. -/
def putFinish (sid : Nat) (body : SeriesBody) (pid : Option Nat)
    (existing : SeriesRow) (nextRule0 : Option StoredRule) (now : String)
    (db : Db) : HRes :=
  let nextType : RType :=
    if body.recurrenceType ≠ FieldV.undef then
      (fieldValD SType.daily body.recurrenceType).toRType
    else existing.recurrenceType
  if nextType = RType.custom then
    if nextRule0 = Option.none then
      HRes.err db "recurrenceRule is required when recurrenceType is custom"
    else
      HRes.ok
        { db with
          series := db.series.map (fun x =>
            if x.id = sid then putPatch body pid nextType nextRule0 now x else x) }
  else if body.recurrenceRule ≠ FieldV.undef ∧ body.recurrenceRule ≠ FieldV.nullv then
    HRes.err db "recurrenceRule can only be set when recurrenceType is custom"
  else
    let finalRule :=
      if body.recurrenceType ≠ FieldV.undef then Option.none else nextRule0
    HRes.ok
      { db with
        series := db.series.map (fun x =>
          if x.id = sid then putPatch body pid nextType finalRule now x else x) }

/-- `PUT /api/recurrences/[id]` (auth.ts lines 123-254). -/
def putRecurrence (u sid : Nat) (body : SeriesBody)
    (projects : List ProjectRow) (now : String) (db : Db) : HRes :=
  match putBasicError body with
  | some m => HRes.err db m
  | Option.none =>
      match db.series.find? (fun s =>
          decide (s.id = sid ∧ s.userId = u ∧ s.deletedAt = Option.none)) with
      | Option.none => HRes.err db "Recurrence series not found"
      | some existing =>
          match resolveProject u body.projectId projects with
          | Except.error m => HRes.err db m
          | Except.ok pid =>
              match body.recurrenceRule with
              | FieldV.undef =>
                  putFinish sid body pid existing existing.recurrenceRule now db
              | FieldV.nullv => putFinish sid body pid existing Option.none now db
              | _ =>
                  match parseTaskCustomRecurrenceRule body.recurrenceRule with
                  | Option.none =>
                      HRes.err db
                        "recurrenceRule must include interval (1-365) and unit (day|week|month)"
                  | some r =>
                      putFinish sid body pid existing
                        (some (serializeTaskCustomRecurrenceRule r)) now db

/-! ## Basic facts about the state transformers -/

/-- `db'` has the tasks of `db` plus some appended rows (every write path
of the engine only ever appends task rows once migration is done). -/
def TasksExtend (db db' : Db) : Prop :=
  ∃ ext, db'.tasks = db.tasks ++ ext

/-! ### The pure cursor chain of the catch-up loop

The cursor positions visited by the `duplicate_on_schedule` loop do not
depend on the database (materialization never feeds back into the next
occurrence computation), so the loop's cursor behaviour can be described
by a pure function.  The boolean records whether the loop exited through
one of its `break` statements (`true`) rather than by exhausting the
500-iteration budget (`false`). -/

def chainCursor (k : RType) (r : Option StoredRule) (today : CalDate) :
    Nat → CalDate → CalDate × Bool
  | 0, c => (c, false)
  | fuel + 1, c =>
      if dlt today c then (c, true)
      else
        match getNextTaskRecurrenceDate c k r with
        | Option.none => (c, true)
        | some nx => if nx = c then (c, true) else chainCursor k r today fuel nx

/-! ### Well-formed database states

The storage layer guarantees primary-key uniqueness and monotone id
allocation; the engine's correctness arguments use exactly this. -/

def WF (db : Db) : Prop :=
  (db.tasks.map TaskRow.id).Nodup ∧
  (db.series.map SeriesRow.id).Nodup ∧
  (∀ t ∈ db.tasks, t.id < db.nextTaskId) ∧
  (∀ s ∈ db.series, s.id < db.nextSeriesId)

instance (db : Db) : Decidable (WF db) := by
  unfold WF; infer_instance

/-! ### Settled series and the fixpoint of the reconciliation pass -/

/-- A series row the reconciliation pass can no longer act on:
an `after_completion` row is blocked by an outstanding instance or has
its due date materialized already; a `duplicate_on_schedule` row has its
`nextDueDate` materialized and a next occurrence that is absent or does
not advance. -/
def SettledCore (db : Db) (s : SeriesRow) : Prop :=
  (s.recurrenceBehavior = Behavior.after_completion →
    hasOutstandingInstance s.id db = true ∨
      hasMaterializedDueDate s.id s.nextDueDate db = true) ∧
  (s.recurrenceBehavior = Behavior.duplicate_on_schedule →
    hasMaterializedDueDate s.id s.nextDueDate db = true ∧
      (getNextTaskRecurrenceDate s.nextDueDate s.recurrenceType
          s.recurrenceRule = Option.none ∨
        getNextTaskRecurrenceDate s.nextDueDate s.recurrenceType
            s.recurrenceRule = some s.nextDueDate))

def c1wSeries : SeriesRow :=
  { id := 1, userId := 7, projectId := Option.none, title := "water plants",
    description := Option.none, priority := Priority.medium,
    recurrenceType := RType.daily,
    recurrenceBehavior := Behavior.duplicate_on_schedule,
    recurrenceRule := Option.none, nextDueDate := ⟨2024, 1, 1⟩,
    active := true, deletedAt := Option.none, createdAt := "c", updatedAt := "c" }

def c1wDb : Db :=
  { tasks := [], series := [c1wSeries], nextTaskId := 0, nextSeriesId := 2 }

def c1cexSeries : SeriesRow :=
  { id := 1, userId := 7, projectId := Option.none, title := "daily chore",
    description := Option.none, priority := Priority.medium,
    recurrenceType := RType.daily,
    recurrenceBehavior := Behavior.duplicate_on_schedule,
    recurrenceRule := Option.none, nextDueDate := ⟨2024, 1, 1⟩,
    active := true, deletedAt := Option.none, createdAt := "c", updatedAt := "c" }

def c1cexDb : Db :=
  { tasks := [], series := [c1cexSeries], nextTaskId := 0, nextSeriesId := 2 }

/-- 500 days after 2024-01-01. -/
def c1cexToday : CalDate := ⟨2025, 5, 15⟩

def c1st1Tasks : List TaskRow :=
  (List.range 500).map (fun k =>
    mkInstance c1cexSeries (addDays ⟨2024, 1, 1⟩ k) "n1" k)

def c1updSeries : SeriesRow :=
  { c1cexSeries with nextDueDate := c1cexToday, updatedAt := "n1" }

def c1st1 : Db :=
  { tasks := c1st1Tasks, series := [c1updSeries], nextTaskId := 500,
    nextSeriesId := 2 }

def c1updSeries2 : SeriesRow :=
  { c1updSeries with nextDueDate := addDays c1cexToday 1, updatedAt := "n2" }

/-! ### The instances of one series -/

/-- The task rows linked to series `sid` (its materialized instances,
plus the migrated source item once migration has linked it). -/
def FF (sid : Nat) (db : Db) : List TaskRow :=
  db.tasks.filter (fun t => decide (t.recurrenceSeriesId = some sid))

def c3wSeries : SeriesRow :=
  { id := 1, userId := 3, projectId := some 9, title := "pay rent",
    description := some "transfer", priority := Priority.high,
    recurrenceType := RType.monthly,
    recurrenceBehavior := Behavior.after_completion,
    recurrenceRule := Option.none, nextDueDate := ⟨2024, 2, 1⟩,
    active := true, deletedAt := Option.none, createdAt := "c",
    updatedAt := "c" }

def c3wDb : Db :=
  { tasks := [], series := [c3wSeries], nextTaskId := 0, nextSeriesId := 2 }

def c2wSeries : SeriesRow :=
  { id := 4, userId := 5, projectId := Option.none, title := "standup notes",
    description := Option.none, priority := Priority.low,
    recurrenceType := RType.daily,
    recurrenceBehavior := Behavior.duplicate_on_schedule,
    recurrenceRule := Option.none, nextDueDate := ⟨2024, 3, 1⟩,
    active := true, deletedAt := Option.none, createdAt := "c",
    updatedAt := "c" }

def c2wDb : Db :=
  { tasks := [], series := [c2wSeries], nextTaskId := 0, nextSeriesId := 5 }

def c2cexSeries : SeriesRow :=
  { id := 4, userId := 5, projectId := Option.none, title := "standup notes",
    description := Option.none, priority := Priority.low,
    recurrenceType := RType.daily,
    recurrenceBehavior := Behavior.duplicate_on_schedule,
    recurrenceRule := Option.none, nextDueDate := ⟨2024, 3, 1⟩,
    active := true, deletedAt := Option.none, createdAt := "c",
    updatedAt := "c" }

def c2cexDb : Db :=
  { tasks := [], series := [c2cexSeries], nextTaskId := 0, nextSeriesId := 5 }

def c4wTask : TaskRow :=
  { id := 11, userId := 2, projectId := Option.none, title := "stretch",
    description := Option.none, status := TaskStatus.open_,
    priority := Priority.medium, dueDate := some ⟨2024, 5, 1⟩,
    recurrenceType := RType.daily,
    recurrenceBehavior := Behavior.after_completion,
    recurrenceRule := Option.none, recurrenceSeriesId := Option.none,
    recurrenceProcessedAt := Option.none, deletedAt := Option.none,
    createdAt := "c", updatedAt := "c" }

def c4wDb : Db :=
  { tasks := [c4wTask], series := [], nextTaskId := 12, nextSeriesId := 0 }

def c5wTask : TaskRow :=
  { c4wTask with id := 21, userId := 6 }

def c5wDb : Db :=
  { tasks := [c5wTask], series := [], nextTaskId := 22, nextSeriesId := 0 }

def c6wSeries : SeriesRow :=
  { id := 2, userId := 9, projectId := Option.none, title := "weekly sweep",
    description := Option.none, priority := Priority.low,
    recurrenceType := RType.weekly,
    recurrenceBehavior := Behavior.duplicate_on_schedule,
    recurrenceRule := Option.none, nextDueDate := ⟨2024, 6, 3⟩,
    active := true, deletedAt := Option.none, createdAt := "c",
    updatedAt := "c" }

def c6wDb : Db :=
  { tasks := [], series := [c6wSeries], nextTaskId := 0, nextSeriesId := 3 }

def c7wSeries : SeriesRow :=
  { id := 3, userId := 9, projectId := Option.none, title := "empty inbox",
    description := Option.none, priority := Priority.medium,
    recurrenceType := RType.daily,
    recurrenceBehavior := Behavior.after_completion,
    recurrenceRule := Option.none, nextDueDate := ⟨2024, 6, 1⟩,
    active := true, deletedAt := Option.none, createdAt := "c",
    updatedAt := "c" }

def c7wDb : Db :=
  { tasks := [], series := [c7wSeries], nextTaskId := 0, nextSeriesId := 4 }

def c8wDone : TaskRow :=
  { id := 31, userId := 4, projectId := Option.none, title := "water",
    description := Option.none, status := TaskStatus.done,
    priority := Priority.low, dueDate := some ⟨2024, 4, 2⟩,
    recurrenceType := RType.daily,
    recurrenceBehavior := Behavior.after_completion,
    recurrenceRule := Option.none, recurrenceSeriesId := Option.none,
    recurrenceProcessedAt := Option.none, deletedAt := Option.none,
    createdAt := "c", updatedAt := "c" }

def c8wOther : TaskRow :=
  { c8wDone with id := 32, recurrenceType := RType.none }

def c8wDb : Db :=
  { tasks := [c8wDone, c8wOther], series := [], nextTaskId := 33,
    nextSeriesId := 0 }

def c9wBody : SeriesBody :=
  { title := FieldV.val "deep clean"
    description := FieldV.undef
    priority := FieldV.undef
    projectId := FieldV.undef
    recurrenceType := FieldV.val SType.custom
    recurrenceBehavior := FieldV.undef
    recurrenceRule := FieldV.val (RuleInput.obj 400 UnitInput.day)
    nextDueDate := NdInput.iso ⟨2024, 8, 1⟩
    active := FieldV.undef }

def c9wSeries : SeriesRow :=
  { id := 5, userId := 8, projectId := Option.none, title := "old",
    description := Option.none, priority := Priority.medium,
    recurrenceType := RType.weekly,
    recurrenceBehavior := Behavior.after_completion,
    recurrenceRule := Option.none, nextDueDate := ⟨2024, 8, 1⟩,
    active := true, deletedAt := Option.none, createdAt := "c",
    updatedAt := "c" }

def c9wDb : Db :=
  { tasks := [], series := [c9wSeries], nextTaskId := 0, nextSeriesId := 6 }

def c10wSeries : SeriesRow :=
  { id := 6, userId := 1, projectId := Option.none, title := "touch base",
    description := Option.none, priority := Priority.medium,
    recurrenceType := RType.daily,
    recurrenceBehavior := Behavior.after_completion,
    recurrenceRule := Option.none, nextDueDate := ⟨2024, 7, 1⟩,
    active := true, deletedAt := Option.none, createdAt := "c",
    updatedAt := "c" }

def c10wDb : Db :=
  { tasks := [], series := [c10wSeries], nextTaskId := 0, nextSeriesId := 7 }

theorem dlt_irrefl (a : CalDate) : ¬ dlt a a := by
  unfold dlt; omega

theorem dlt_trans {a b c : CalDate} (h1 : dlt a b) (h2 : dlt b c) : dlt a c := by
  unfold dlt at *; omega

theorem dlt_ne {a b : CalDate} (h : dlt a b) : a ≠ b := by
  rintro rfl; exact dlt_irrefl a h

theorem dle_refl (a : CalDate) : dle a a := Or.inr rfl

theorem dle_trans {a b c : CalDate} (h1 : dle a b) (h2 : dle b c) : dle a c := by
  rcases h1 with h1 | rfl
  · rcases h2 with h2 | rfl
    · exact Or.inl (dlt_trans h1 h2)
    · exact Or.inl h1
  · exact h2

theorem dlt_of_dle_of_dlt {a b c : CalDate} (h1 : dle a b) (h2 : dlt b c) : dlt a c := by
  rcases h1 with h1 | rfl
  · exact dlt_trans h1 h2
  · exact h2

theorem dle_of_dlt {a b : CalDate} (h : dlt a b) : dle a b := Or.inl h

theorem not_dlt_iff_dle {a b : CalDate} : ¬ dlt a b ↔ dle b a := by
  unfold dle dlt
  constructor
  · intro h
    by_cases hy : b.y = a.y
    · by_cases hm : b.m = a.m
      · by_cases hd : b.d = a.d
        · right; cases a; cases b; simp_all
        · left; omega
      · left; omega
    · left; omega
  · intro h hlt
    rcases h with h | rfl
    · omega
    · omega

theorem nextDay_dlt (x : CalDate) : dlt x (nextDay x) := by
  unfold nextDay dlt
  split
  · simp
  · split
    · simp
    · simp

theorem addDays_dlt (x : CalDate) {n : Nat} (h : 1 ≤ n) : dlt x (addDays x n) := by
  induction n with
  | zero => omega
  | succ k ih =>
    rcases Nat.eq_or_lt_of_le h with h1 | h1
    · rw [← h1]
      exact nextDay_dlt x
    · have hk : 1 ≤ k := by omega
      exact dlt_trans (ih hk) (nextDay_dlt (addDays x k))

theorem addMonthsClamped_dlt (x : CalDate) {n : Nat} (h : 1 ≤ n) :
    dlt x (addMonthsClamped x n) := by
  unfold addMonthsClamped dlt
  simp only
  omega

/-- Spec 8: every defined next occurrence is strictly after its anchor. -/
theorem getNextTaskRecurrenceDate_dlt {anchor : CalDate} {k : RType}
    {rule : Option StoredRule} {next : CalDate}
    (h : getNextTaskRecurrenceDate anchor k rule = some next) :
    dlt anchor next := by
  unfold getNextTaskRecurrenceDate at h
  cases k with
  | none => simp at h
  | daily =>
    simp only [Option.some.injEq] at h
    rw [← h]; exact addDays_dlt anchor (by omega)
  | weekly =>
    simp only [Option.some.injEq] at h
    rw [← h]; exact addDays_dlt anchor (by omega)
  | monthly =>
    simp only [Option.some.injEq] at h
    rw [← h]; exact addMonthsClamped_dlt anchor (by omega)
  | custom =>
    revert h
    unfold parseStoredRule
    match rule with
    | Option.none => intro h; simp at h
    | some StoredRule.malformed => intro h; simp at h
    | some (StoredRule.valid i u) =>
      by_cases hi : 1 ≤ i ∧ i ≤ 365
      · simp only [if_pos hi]
        cases u with
        | day =>
          intro h
          simp only [Option.some.injEq] at h
          rw [← h]; exact addDays_dlt anchor (by omega)
        | week =>
          intro h
          simp only [Option.some.injEq] at h
          rw [← h]; exact addDays_dlt anchor (by omega)
        | month =>
          intro h
          simp only [Option.some.injEq] at h
          rw [← h]; exact addMonthsClamped_dlt anchor (by omega)
      · simp only [if_neg hi]
        intro h; simp at h

theorem TasksExtend.rfl (db : Db) : TasksExtend db db := ⟨[], by simp⟩

theorem TasksExtend.trans {a b c : Db} (h1 : TasksExtend a b)
    (h2 : TasksExtend b c) : TasksExtend a c := by
  obtain ⟨e1, h1⟩ := h1
  obtain ⟨e2, h2⟩ := h2
  exact ⟨e1 ++ e2, by simp [h2, h1]⟩

theorem hasOutstandingInstance_mono {sid : Nat} {db db' : Db}
    (h : hasOutstandingInstance sid db = true) (hext : TasksExtend db db') :
    hasOutstandingInstance sid db' = true := by
  obtain ⟨ext, hext⟩ := hext
  unfold hasOutstandingInstance at *
  rw [hext, List.any_append, h, Bool.true_or]

theorem hasMaterializedDueDate_mono {sid : Nat} {d : CalDate} {db db' : Db}
    (h : hasMaterializedDueDate sid d db = true) (hext : TasksExtend db db') :
    hasMaterializedDueDate sid d db' = true := by
  obtain ⟨ext, hext⟩ := hext
  unfold hasMaterializedDueDate at *
  rw [hext, List.any_append, h, Bool.true_or]

theorem materializeSeries_tasks (s : SeriesRow) (d : CalDate) (now : String)
    (db : Db) :
    (materializeSeries s d now db).tasks =
      db.tasks ++ [mkInstance s d now db.nextTaskId] := rfl

theorem materializeSeries_series (s : SeriesRow) (d : CalDate) (now : String)
    (db : Db) : (materializeSeries s d now db).series = db.series := rfl

theorem materializeSeries_extend (s : SeriesRow) (d : CalDate) (now : String)
    (db : Db) : TasksExtend db (materializeSeries s d now db) :=
  ⟨[mkInstance s d now db.nextTaskId], rfl⟩

theorem hasMaterializedDueDate_materialize_self (s : SeriesRow) (d : CalDate)
    (now : String) (db : Db) :
    hasMaterializedDueDate s.id d (materializeSeries s d now db) = true := by
  unfold hasMaterializedDueDate materializeSeries mkInstance
  simp

theorem chainCursor_dle (k : RType) (r : Option StoredRule) (today : CalDate) :
    ∀ (fuel : Nat) (c : CalDate), dle c (chainCursor k r today fuel c).1 := by
  intro fuel
  induction fuel with
  | zero => intro c; exact dle_refl c
  | succ n ih =>
    intro c
    unfold chainCursor
    split
    · exact dle_refl c
    · split
      · exact dle_refl c
      · rename_i nx hnx
        split
        · exact dle_refl c
        · exact dle_trans (dle_of_dlt (getNextTaskRecurrenceDate_dlt hnx)) (ih nx)

/-- The stateful loop follows the pure cursor chain, only appends task
rows, and never touches series rows or the series id counter; moreover,
if the chain reports a break at a final cursor that is not past today,
the final cursor date is materialized in the final state and the next
occurrence from it is none or does not advance. -/
theorem dupCatchUp_spec (s : SeriesRow) (today : CalDate) (now : String) :
    ∀ (fuel : Nat) (c : CalDate) (db : Db),
      (dupCatchUp s today now fuel c db).1 =
        (chainCursor s.recurrenceType s.recurrenceRule today fuel c).1 ∧
      TasksExtend db (dupCatchUp s today now fuel c db).2 ∧
      (dupCatchUp s today now fuel c db).2.series = db.series ∧
      (dupCatchUp s today now fuel c db).2.nextSeriesId = db.nextSeriesId ∧
      ((chainCursor s.recurrenceType s.recurrenceRule today fuel c).2 = true →
        ¬ dlt today (dupCatchUp s today now fuel c db).1 →
        hasMaterializedDueDate s.id (dupCatchUp s today now fuel c db).1
            (dupCatchUp s today now fuel c db).2 = true ∧
          (getNextTaskRecurrenceDate (dupCatchUp s today now fuel c db).1
              s.recurrenceType s.recurrenceRule = Option.none ∨
            getNextTaskRecurrenceDate (dupCatchUp s today now fuel c db).1
                s.recurrenceType s.recurrenceRule =
              some (dupCatchUp s today now fuel c db).1)) := by
  intro fuel
  induction fuel with
  | zero =>
    intro c db
    refine ⟨rfl, TasksExtend.rfl db, rfl, rfl, ?_⟩
    intro hbrk
    simp [chainCursor] at hbrk
  | succ n ih =>
    intro c db
    unfold dupCatchUp chainCursor
    by_cases htop : dlt today c
    · simp only [if_pos htop]
      exact ⟨trivial, TasksExtend.rfl db, trivial, trivial, fun _ hc => absurd htop hc⟩
    · simp only [if_neg htop]
      have hdb1 : TasksExtend db
          (if hasMaterializedDueDate s.id c db then db
           else materializeSeries s c now db) := by
        split
        · exact TasksExtend.rfl db
        · exact materializeSeries_extend s c now db
      have hdb1mat : hasMaterializedDueDate s.id c
          (if hasMaterializedDueDate s.id c db then db
           else materializeSeries s c now db) = true := by
        split
        · assumption
        · exact hasMaterializedDueDate_materialize_self s c now db
      have hdb1series : (if hasMaterializedDueDate s.id c db then db
          else materializeSeries s c now db).series = db.series := by
        split
        · rfl
        · rfl
      have hdb1sid : (if hasMaterializedDueDate s.id c db then db
          else materializeSeries s c now db).nextSeriesId = db.nextSeriesId := by
        split
        · rfl
        · rfl
      cases hnx : getNextTaskRecurrenceDate c s.recurrenceType s.recurrenceRule with
      | none =>
        refine ⟨rfl, hdb1, hdb1series, hdb1sid, fun _ _ => ⟨hdb1mat, Or.inl hnx⟩⟩
      | some nx =>
        by_cases heq : nx = c
        · simp only [if_pos heq]
          refine ⟨trivial, hdb1, hdb1series, hdb1sid, fun _ _ => ⟨hdb1mat, ?_⟩⟩
          right
          rw [hnx, heq]
        · simp only [if_neg heq]
          obtain ⟨ih1, ih2, ih3, ih4, ih5⟩ := ih nx
            (if hasMaterializedDueDate s.id c db then db
             else materializeSeries s c now db)
          exact ⟨ih1, TasksExtend.trans hdb1 ih2, by rw [ih3, hdb1series],
            by rw [ih4, hdb1sid], ih5⟩

/-- If the loop's starting conditions are already settled — the cursor is
due, its date is materialized, and the next occurrence is none or does
not advance — the loop is a no-op. -/
theorem dupCatchUp_noop (s : SeriesRow) (today : CalDate) (now : String)
    {fuel : Nat} (hfuel : 1 ≤ fuel) {c : CalDate} {db : Db}
    (hdue : ¬ dlt today c)
    (hmat : hasMaterializedDueDate s.id c db = true)
    (hnx : getNextTaskRecurrenceDate c s.recurrenceType s.recurrenceRule =
        Option.none ∨
      getNextTaskRecurrenceDate c s.recurrenceType s.recurrenceRule = some c) :
    dupCatchUp s today now fuel c db = (c, db) := by
  cases fuel with
  | zero => omega
  | succ n =>
    unfold dupCatchUp
    simp only [if_neg hdue, hmat, if_pos]
    rcases hnx with hnx | hnx
    · rw [hnx]
    · rw [hnx]
      simp

theorem processSeries_ac {s : SeriesRow}
    (h : s.recurrenceBehavior = Behavior.after_completion)
    (today : CalDate) (now : String) (db : Db) :
    processSeries today now db s =
      if hasOutstandingInstance s.id db then db
      else if hasMaterializedDueDate s.id s.nextDueDate db then db
      else materializeSeries s s.nextDueDate now db := by
  unfold processSeries
  rw [if_pos h]

theorem processSeries_dup {s : SeriesRow}
    (h : s.recurrenceBehavior = Behavior.duplicate_on_schedule)
    (today : CalDate) (now : String) (db : Db) :
    processSeries today now db s =
      (if (dupCatchUp s today now 500 s.nextDueDate db).1 = s.nextDueDate then
        (dupCatchUp s today now 500 s.nextDueDate db).2
      else
        { (dupCatchUp s today now 500 s.nextDueDate db).2 with
          series :=
            (dupCatchUp s today now 500 s.nextDueDate db).2.series.map (fun x =>
              if x.id = s.id then
                { x with
                  nextDueDate := (dupCatchUp s today now 500 s.nextDueDate db).1
                  updatedAt := now }
              else x) }) := by
  unfold processSeries
  rw [if_neg (by rw [h]; simp)]

theorem processSeries_extend (today : CalDate) (now : String) (db : Db)
    (s : SeriesRow) : TasksExtend db (processSeries today now db s) := by
  cases hb : s.recurrenceBehavior with
  | after_completion =>
    rw [processSeries_ac hb]
    split
    · exact TasksExtend.rfl db
    · split
      · exact TasksExtend.rfl db
      · exact materializeSeries_extend s s.nextDueDate now db
  | duplicate_on_schedule =>
    rw [processSeries_dup hb]
    have hext := (dupCatchUp_spec s today now 500 s.nextDueDate db).2.1
    split
    · exact hext
    · exact hext

theorem processSeries_nextSeriesId (today : CalDate) (now : String) (db : Db)
    (s : SeriesRow) : (processSeries today now db s).nextSeriesId = db.nextSeriesId := by
  cases hb : s.recurrenceBehavior with
  | after_completion =>
    rw [processSeries_ac hb]
    split
    · rfl
    · split
      · rfl
      · rfl
  | duplicate_on_schedule =>
    rw [processSeries_dup hb]
    have hsid := (dupCatchUp_spec s today now 500 s.nextDueDate db).2.2.2.1
    split
    · exact hsid
    · exact hsid

/-- The series rows of a processed state: either the list is untouched
(`after_completion` branch, or a cursor that did not move), or exactly
the rows with the processed series' id get the final cursor as their new
`nextDueDate`. -/
theorem processSeries_series_cases (today : CalDate) (now : String) (db : Db)
    (s : SeriesRow) :
    (processSeries today now db s).series = db.series ∨
      (s.recurrenceBehavior = Behavior.duplicate_on_schedule ∧
        (processSeries today now db s).series = db.series.map (fun x =>
          if x.id = s.id then
            { x with
              nextDueDate := (dupCatchUp s today now 500 s.nextDueDate db).1
              updatedAt := now }
          else x)) := by
  cases hb : s.recurrenceBehavior with
  | after_completion =>
    left
    rw [processSeries_ac hb]
    split
    · rfl
    · split
      · rfl
      · rfl
  | duplicate_on_schedule =>
    rw [processSeries_dup hb]
    have hser := (dupCatchUp_spec s today now 500 s.nextDueDate db).2.2.1
    split
    · left; exact hser
    · right
      refine ⟨rfl, ?_⟩
      simp only [hser]

/-! ### Migration lemmas -/

theorem migrateStep_tasks_length (today : CalDate) (now : String) (db : Db)
    (row : TaskRow) :
    (migrateStep today now db row).tasks.length = db.tasks.length := by
  unfold migrateStep
  split
  · rfl
  · simp

theorem migrateStep_series_mem {x : SeriesRow} {db : Db}
    (h : x ∈ db.series) (today : CalDate) (now : String) (row : TaskRow) :
    x ∈ (migrateStep today now db row).series := by
  unfold migrateStep
  split
  · exact h
  · simp only [List.mem_append]
    exact Or.inl h

theorem migrateFold_tasks_length (today : CalDate) (now : String) :
    ∀ (l : List TaskRow) (db : Db),
      (l.foldl (migrateStep today now) db).tasks.length = db.tasks.length := by
  intro l
  induction l with
  | nil => intro db; rfl
  | cons r l' ih =>
    intro db
    rw [List.foldl_cons, ih, migrateStep_tasks_length]

theorem migrateFold_series_mem (today : CalDate) (now : String) :
    ∀ (l : List TaskRow) (db : Db) (x : SeriesRow), x ∈ db.series →
      x ∈ (l.foldl (migrateStep today now) db).series := by
  intro l
  induction l with
  | nil => intro db x h; exact h
  | cons r l' ih =>
    intro db x h
    rw [List.foldl_cons]
    exact ih _ x (migrateStep_series_mem h today now r)

theorem migrate_tasks_length (u : Nat) (today : CalDate) (now : String)
    (db : Db) :
    (migrateLegacyTaskRecurrencesForUser u today now db).tasks.length =
      db.tasks.length :=
  migrateFold_tasks_length today now (legacyRows u db) db

theorem migrate_series_mem {x : SeriesRow} {db : Db} (h : x ∈ db.series)
    (u : Nat) (today : CalDate) (now : String) :
    x ∈ (migrateLegacyTaskRecurrencesForUser u today now db).series :=
  migrateFold_series_mem today now (legacyRows u db) db x h

theorem isLegacyCandidate_patch_false (u : Nat) (now : String) (sid : Nat)
    (row t : TaskRow) :
    isLegacyCandidate u (migratedTaskPatch now sid row t) = false := by
  unfold isLegacyCandidate migratedTaskPatch
  simp

/-- After the migration fold has consumed every pending legacy row, no
legacy candidate remains among the tasks. -/
theorem migrateFold_no_candidates (u : Nat) (today : CalDate) (now : String) :
    ∀ (l : List TaskRow) (db : Db),
      (∀ r ∈ l, r.recurrenceType ≠ RType.none) →
      (∀ t ∈ db.tasks, isLegacyCandidate u t = true → t.id ∈ l.map TaskRow.id) →
      ∀ t ∈ (l.foldl (migrateStep today now) db).tasks,
        isLegacyCandidate u t = false := by
  intro l
  induction l with
  | nil =>
    intro db _ hmem t ht
    by_contra hc
    have : isLegacyCandidate u t = true := by
      cases h : isLegacyCandidate u t
      · exact absurd h hc
      · rfl
    have := hmem t ht this
    simp at this
  | cons r l' ih =>
    intro db hl hmem
    rw [List.foldl_cons]
    apply ih
    · intro r' hr'
      exact hl r' (List.mem_cons_of_mem r hr')
    · intro t ht hc
      unfold migrateStep at ht
      rw [if_neg (hl r (List.mem_cons_self r l'))] at ht
      simp only [List.mem_map] at ht
      obtain ⟨t0, ht0, rfl⟩ := ht
      by_cases hid : t0.id = r.id
      · rw [if_pos hid] at hc
        rw [isLegacyCandidate_patch_false] at hc
        exact absurd hc (by simp)
      · rw [if_neg hid] at hc
        have := hmem t0 ht0 hc
        simp only [List.map_cons, List.mem_cons] at this
        rcases this with h | h
        · rw [if_neg hid]
          exact absurd h hid
        · rw [if_neg hid]
          simpa using h

/-- No legacy candidate survives `migrateLegacyTaskRecurrencesForUser`. -/
theorem migrate_no_candidates (u : Nat) (today : CalDate) (now : String)
    (db : Db) :
    ∀ t ∈ (migrateLegacyTaskRecurrencesForUser u today now db).tasks,
      isLegacyCandidate u t = false := by
  apply migrateFold_no_candidates u today now (legacyRows u db) db
  · intro r hr
    have := List.mem_filter.mp hr
    have h2 := this.2
    unfold isLegacyCandidate at h2
    simp only [decide_eq_true_eq] at h2
    exact h2.2.2.2
  · intro t ht hc
    exact List.mem_map_of_mem TaskRow.id (List.mem_filter.mpr ⟨ht, hc⟩)

/-- A state with no legacy candidates is a fixed point of the migration
step. -/
theorem migrate_fixpoint {u : Nat} {db : Db}
    (h : ∀ t ∈ db.tasks, isLegacyCandidate u t = false)
    (today : CalDate) (now : String) :
    migrateLegacyTaskRecurrencesForUser u today now db = db := by
  unfold migrateLegacyTaskRecurrencesForUser
  have : legacyRows u db = [] := by
    unfold legacyRows
    rw [List.filter_eq_nil_iff]
    intro t ht
    rw [h t ht]
    simp
  rw [this]
  rfl

theorem seriesRow_eq_of_id_eq {db : Db}
    (hnd : (db.series.map SeriesRow.id).Nodup) {a b : SeriesRow}
    (ha : a ∈ db.series) (hb : b ∈ db.series) (hid : a.id = b.id) : a = b :=
  List.inj_on_of_nodup_map hnd ha hb hid

theorem nodup_map_key_of_pointwise {α : Type} {key : α → Nat} {l : List α}
    (g : α → α) (hg : ∀ x, key (g x) = key x)
    (h : (l.map key).Nodup) : ((l.map g).map key).Nodup := by
  rw [List.map_map, show key ∘ g = key from funext (fun x => hg x)]
  exact h

theorem mem_map_key_of_pointwise {α : Type} {key : α → Nat} {l : List α}
    (g : α → α) (hg : ∀ x, key (g x) = key x) {x : α} (hx : x ∈ l.map g) :
    ∃ x0 ∈ l, key x = key x0 := by
  obtain ⟨x0, hx0, rfl⟩ := List.mem_map.mp hx
  exact ⟨x0, hx0, hg x0⟩

theorem WF_migrateStep {db : Db} (hwf : WF db) (today : CalDate)
    (now : String) (row : TaskRow) : WF (migrateStep today now db row) := by
  obtain ⟨ht, hs, hbt, hbs⟩ := hwf
  unfold migrateStep
  split
  · exact ⟨ht, hs, hbt, hbs⟩
  · refine ⟨?_, ?_, ?_, ?_⟩
    · simp only
      apply nodup_map_key_of_pointwise _ _ ht
      intro x
      split
      · rfl
      · rfl
    · simp only [List.map_append]
      rw [List.nodup_append]
      refine ⟨hs, by simp [mkMigratedSeries], ?_⟩
      intro a hamem hbmem
      simp only [List.map_cons, List.map_nil, List.mem_cons,
        List.not_mem_nil, or_false] at hbmem
      simp only [List.mem_map] at hamem
      obtain ⟨s0, hs0, rfl⟩ := hamem
      have := hbs s0 hs0
      rw [hbmem] at this
      simp [mkMigratedSeries] at this
    · simp only
      intro t htm
      simp only [List.mem_map] at htm
      obtain ⟨t0, ht0, rfl⟩ := htm
      split
      · exact hbt t0 ht0
      · exact hbt t0 ht0
    · simp only
      intro s hsm
      simp only [List.mem_append] at hsm
      rcases hsm with hsm | hsm
      · have := hbs s hsm
        omega
      · simp only [List.mem_cons, List.not_mem_nil, or_false] at hsm
        subst hsm
        simp [mkMigratedSeries]

theorem WF_migrateFold (today : CalDate) (now : String) :
    ∀ (l : List TaskRow) (db : Db), WF db →
      WF (l.foldl (migrateStep today now) db) := by
  intro l
  induction l with
  | nil => intro db h; exact h
  | cons r l' ih =>
    intro db h
    rw [List.foldl_cons]
    exact ih _ (WF_migrateStep h today now r)

theorem WF_migrate {db : Db} (hwf : WF db) (u : Nat) (today : CalDate)
    (now : String) : WF (migrateLegacyTaskRecurrencesForUser u today now db) :=
  WF_migrateFold today now (legacyRows u db) db hwf

theorem WF_materialize {db : Db} (hwf : WF db) (s : SeriesRow) (d : CalDate)
    (now : String) : WF (materializeSeries s d now db) := by
  obtain ⟨ht, hs, hbt, hbs⟩ := hwf
  unfold materializeSeries
  refine ⟨?_, hs, ?_, hbs⟩
  · simp only [List.map_append]
    rw [List.nodup_append]
    refine ⟨ht, by simp, ?_⟩
    intro a hamem hbmem
    simp only [List.map_cons, List.map_nil, List.mem_cons,
      List.not_mem_nil, or_false] at hbmem
    simp only [List.mem_map] at hamem
    obtain ⟨t0, ht0, rfl⟩ := hamem
    have := hbt t0 ht0
    rw [hbmem] at this
    simp [mkInstance] at this
  · simp only
    intro t htm
    simp only [List.mem_append, List.mem_cons, List.not_mem_nil, or_false] at htm
    rcases htm with htm | htm
    · have := hbt t htm
      omega
    · subst htm
      simp [mkInstance]

theorem WF_dupCatchUp (s : SeriesRow) (today : CalDate) (now : String) :
    ∀ (fuel : Nat) (c : CalDate) (db : Db), WF db →
      WF (dupCatchUp s today now fuel c db).2 := by
  intro fuel
  induction fuel with
  | zero => intro c db h; exact h
  | succ n ih =>
    intro c db h
    unfold dupCatchUp
    by_cases htop : dlt today c
    · simp only [if_pos htop]
      exact h
    · simp only [if_neg htop]
      have h1 : WF (if hasMaterializedDueDate s.id c db then db
          else materializeSeries s c now db) := by
        split
        · exact h
        · exact WF_materialize h s c now
      cases hnx : getNextTaskRecurrenceDate c s.recurrenceType s.recurrenceRule with
      | none => exact h1
      | some nx =>
        by_cases heq : nx = c
        · simp only [if_pos heq]
          exact h1
        · simp only [if_neg heq]
          exact ih nx _ h1

theorem WF_processSeries {db : Db} (hwf : WF db) (today : CalDate)
    (now : String) (s : SeriesRow) : WF (processSeries today now db s) := by
  cases hb : s.recurrenceBehavior with
  | after_completion =>
    rw [processSeries_ac hb]
    split
    · exact hwf
    · split
      · exact hwf
      · exact WF_materialize hwf s s.nextDueDate now
  | duplicate_on_schedule =>
    rw [processSeries_dup hb]
    have h1 := WF_dupCatchUp s today now 500 s.nextDueDate db hwf
    split
    · exact h1
    · obtain ⟨ht, hs, hbt, hbs⟩ := h1
      refine ⟨ht, ?_, hbt, ?_⟩
      · simp only
        apply nodup_map_key_of_pointwise _ _ hs
        intro x
        split
        · rfl
        · rfl
      · simp only
        intro x hxm
        simp only [List.mem_map] at hxm
        obtain ⟨x0, hx0, rfl⟩ := hxm
        split
        · exact hbs x0 hx0
        · exact hbs x0 hx0

theorem WF_syncFold (today : CalDate) (now : String) :
    ∀ (l : List SeriesRow) (db : Db), WF db →
      WF (l.foldl (processSeries today now) db) := by
  intro l
  induction l with
  | nil => intro db h; exact h
  | cons r l' ih =>
    intro db h
    rw [List.foldl_cons]
    exact ih _ (WF_processSeries h today now r)

theorem WF_sync {db : Db} (hwf : WF db) (u : Nat) (today : CalDate)
    (now : String) : WF (syncRecurrenceSeriesForUser u today now db) :=
  WF_syncFold today now _ _ (WF_migrate hwf u today now)

/-! ### Evolution of series rows through the reconciliation fold -/

/-- A series row of the state entering the reconciliation fold either
survives unchanged, or — only when it carries `duplicate_on_schedule`
behaviour and is among the processed rows — survives with its
`nextDueDate` replaced by the final catch-up cursor of the pure chain. -/
theorem syncFold_series_master (today : CalDate) (now : String) :
    ∀ (l : List SeriesRow) (db : Db),
      (l.map SeriesRow.id).Nodup →
      (∀ r ∈ l, ∀ x ∈ db.series, x.id = r.id → x = r) →
      ∀ x ∈ db.series,
        x ∈ (l.foldl (processSeries today now) db).series ∨
          (x ∈ l ∧ x.recurrenceBehavior = Behavior.duplicate_on_schedule ∧
            { x with
              nextDueDate :=
                (chainCursor x.recurrenceType x.recurrenceRule today 500
                  x.nextDueDate).1
              updatedAt := now } ∈
              (l.foldl (processSeries today now) db).series) := by
  intro l
  induction l with
  | nil =>
    intro db _ _ x hx
    left
    simpa using hx
  | cons r l' ih =>
    intro db hnd hpend x hx
    rw [List.foldl_cons]
    have hnd0 := List.nodup_cons.mp (show (r.id :: l'.map SeriesRow.id).Nodup from hnd)
    have hrid : r.id ∉ l'.map SeriesRow.id := hnd0.1
    have hnd' : (l'.map SeriesRow.id).Nodup := hnd0.2
    have hpend' : ∀ r' ∈ l', ∀ y ∈ (processSeries today now db r).series,
        y.id = r'.id → y = r' := by
      intro r' hr' y hy hid
      rcases processSeries_series_cases today now db r with hcase | ⟨hdup, hcase⟩
      · rw [hcase] at hy
        exact hpend r' (List.mem_cons_of_mem r hr') y hy hid
      · rw [hcase] at hy
        obtain ⟨y0, hy0, rfl⟩ := List.mem_map.mp hy
        by_cases hid0 : y0.id = r.id
        · rw [if_pos hid0] at hid ⊢
          simp only at hid
          rw [hid0] at hid
          exact absurd (hid ▸ List.mem_map_of_mem SeriesRow.id hr') hrid
        · rw [if_neg hid0] at hid ⊢
          exact hpend r' (List.mem_cons_of_mem r hr') y0 hy0 hid
    rcases processSeries_series_cases today now db r with hcase | ⟨hdup, hcase⟩
    · have hx' : x ∈ (processSeries today now db r).series := by
        rw [hcase]; exact hx
      rcases ih (processSeries today now db r) hnd' hpend' x hx' with h | ⟨hxl, hb, hmem⟩
      · exact Or.inl h
      · exact Or.inr ⟨List.mem_cons_of_mem r hxl, hb, hmem⟩
    · by_cases hxid : x.id = r.id
      · have hxr : x = r := hpend r (List.mem_cons_self r l') x hx hxid
        subst hxr
        have himg : { x with
            nextDueDate := (dupCatchUp x today now 500 x.nextDueDate db).1
            updatedAt := now } ∈ (processSeries today now db x).series := by
          rw [hcase]
          exact List.mem_map.mpr ⟨x, hx, by rw [if_pos rfl]⟩
        rcases ih (processSeries today now db x) hnd' hpend'
            _ himg with h | ⟨hxl', _, _⟩
        · right
          refine ⟨List.mem_cons_self x l', hdup, ?_⟩
          rw [← (dupCatchUp_spec x today now 500 x.nextDueDate db).1]
          exact h
        · exact absurd (List.mem_map_of_mem SeriesRow.id hxl') (by simpa using hrid)
      · have hx' : x ∈ (processSeries today now db r).series := by
          rw [hcase]
          exact List.mem_map.mpr ⟨x, hx, by rw [if_neg hxid]⟩
        rcases ih (processSeries today now db r) hnd' hpend' x hx' with h | ⟨hxl, hb, hmem⟩
        · exact Or.inl h
        · exact Or.inr ⟨List.mem_cons_of_mem r hxl, hb, hmem⟩

/-- Factored step case of the pending-row argument: processing `r` leaves
every row that shares an id with a still-pending row untouched. -/
theorem pending_match_step {today : CalDate} {now : String} {db : Db}
    {r : SeriesRow} {l' : List SeriesRow}
    (hrid : r.id ∉ l'.map SeriesRow.id)
    (hpend : ∀ r' ∈ r :: l', ∀ x ∈ db.series, x.id = r'.id → x = r') :
    ∀ r' ∈ l', ∀ y ∈ (processSeries today now db r).series,
      y.id = r'.id → y = r' := by
  intro r' hr' y hy hid
  rcases processSeries_series_cases today now db r with hcase | ⟨_, hcase⟩
  · rw [hcase] at hy
    exact hpend r' (List.mem_cons_of_mem r hr') y hy hid
  · rw [hcase] at hy
    obtain ⟨y0, hy0, rfl⟩ := List.mem_map.mp hy
    by_cases hid0 : y0.id = r.id
    · rw [if_pos hid0] at hid ⊢
      simp only at hid
      rw [hid0] at hid
      exact absurd (hid ▸ List.mem_map_of_mem SeriesRow.id hr') hrid
    · rw [if_neg hid0] at hid ⊢
      exact hpend r' (List.mem_cons_of_mem r hr') y0 hy0 hid

theorem SettledCore.mono {db db' : Db} {s : SeriesRow}
    (h : SettledCore db s) (hext : TasksExtend db db') :
    SettledCore db' s := by
  obtain ⟨hac, hdup⟩ := h
  constructor
  · intro hb
    rcases hac hb with h | h
    · exact Or.inl (hasOutstandingInstance_mono h hext)
    · exact Or.inr (hasMaterializedDueDate_mono h hext)
  · intro hb
    obtain ⟨h1, h2⟩ := hdup hb
    exact ⟨hasMaterializedDueDate_mono h1 hext, h2⟩

theorem hasOutstandingInstance_materialize_self (s : SeriesRow) (d : CalDate)
    (now : String) (db : Db) :
    hasOutstandingInstance s.id (materializeSeries s d now db) = true := by
  unfold hasOutstandingInstance materializeSeries mkInstance
  simp

theorem isSelectedSeries_due {u : Nat} {today : CalDate} {s : SeriesRow}
    (h : isSelectedSeries u today s = true) : ¬ dlt today s.nextDueDate := by
  unfold isSelectedSeries at h
  simp only [decide_eq_true_eq] at h
  exact not_dlt_iff_dle.mpr h.2.2.2

/-- Processing a settled, selected series row does nothing. -/
theorem processSeries_settled {u : Nat} {today : CalDate} {now : String}
    {db : Db} {s : SeriesRow}
    (hsel : isSelectedSeries u today s = true)
    (hcore : SettledCore db s) :
    processSeries today now db s = db := by
  have hdue := isSelectedSeries_due hsel
  cases hb : s.recurrenceBehavior with
  | after_completion =>
    rw [processSeries_ac hb]
    rcases hcore.1 hb with h | h
    · rw [if_pos h]
    · by_cases hout : hasOutstandingInstance s.id db
      · rw [if_pos hout]
      · rw [if_neg hout, if_pos h]
  | duplicate_on_schedule =>
    obtain ⟨hmat, hnx⟩ := hcore.2 hb
    rw [processSeries_dup hb,
      dupCatchUp_noop s today now (by omega) hdue hmat hnx]
    simp

/-- A state whose tasks contain no legacy candidate and whose selected
series are all settled is a fixed point of the whole reconciliation
pass. -/
theorem sync_fixpoint {u : Nat} {today : CalDate} {db : Db}
    (hset : ∀ s ∈ db.series, isSelectedSeries u today s = true →
      SettledCore db s)
    (hnc : ∀ t ∈ db.tasks, isLegacyCandidate u t = false)
    (now : String) :
    syncRecurrenceSeriesForUser u today now db = db := by
  unfold syncRecurrenceSeriesForUser
  rw [migrate_fixpoint hnc]
  have main : ∀ (l : List SeriesRow),
      (∀ s ∈ l, isSelectedSeries u today s = true → SettledCore db s) →
      (∀ s ∈ l, isSelectedSeries u today s = true) →
      l.foldl (processSeries today now) db = db := by
    intro l
    induction l with
    | nil => intro _ _; rfl
    | cons r l' ih =>
      intro h1 h2
      rw [List.foldl_cons,
        processSeries_settled (h2 r (List.mem_cons_self r l'))
          (h1 r (List.mem_cons_self r l') (h2 r (List.mem_cons_self r l')))]
      exact ih (fun s hs => h1 s (List.mem_cons_of_mem r hs))
        (fun s hs => h2 s (List.mem_cons_of_mem r hs))
  apply main
  · intro s hs _
    exact hset s (List.mem_of_mem_filter hs) (List.of_mem_filter hs)
  · intro s hs
    exact List.of_mem_filter hs

/-- The reconciliation fold settles every selected series row, provided
every processed `duplicate_on_schedule` row's catch-up chain terminates
through a break rather than by exhausting the 500-iteration budget. -/
theorem syncFold_settles (u : Nat) (today : CalDate) (now : String) :
    ∀ (l : List SeriesRow) (db : Db),
      (l.map SeriesRow.id).Nodup →
      (∀ r ∈ l, ∀ x ∈ db.series, x.id = r.id → x = r) →
      (∀ r ∈ l, isSelectedSeries u today r = true) →
      (∀ r ∈ l, r.recurrenceBehavior = Behavior.duplicate_on_schedule →
        (chainCursor r.recurrenceType r.recurrenceRule today 500
          r.nextDueDate).2 = true) →
      (∀ x ∈ db.series, isSelectedSeries u today x = true →
        x ∈ l ∨ SettledCore db x) →
      ∀ x ∈ (l.foldl (processSeries today now) db).series,
        isSelectedSeries u today x = true →
        SettledCore (l.foldl (processSeries today now) db) x := by
  intro l
  induction l with
  | nil =>
    intro db _ _ _ _ hinv x hx hsel
    rcases hinv x hx hsel with h | h
    · simp at h
    · exact h
  | cons r l' ih =>
    intro db hnd hpend hsel hbrk hinv
    rw [List.foldl_cons]
    have hnd0 := List.nodup_cons.mp
      (show (r.id :: l'.map SeriesRow.id).Nodup from hnd)
    apply ih (processSeries today now db r) hnd0.2
      (pending_match_step hnd0.1 hpend)
      (fun r' hr' => hsel r' (List.mem_cons_of_mem r hr'))
      (fun r' hr' => hbrk r' (List.mem_cons_of_mem r hr'))
    intro x hx hselx
    have hext : TasksExtend db (processSeries today now db r) :=
      processSeries_extend today now db r
    cases hbr : r.recurrenceBehavior with
    | after_completion =>
      have hser : (processSeries today now db r).series = db.series := by
        rw [processSeries_ac hbr]
        split
        · rfl
        · split
          · rfl
          · rfl
      have hx0 : x ∈ db.series := hser ▸ hx
      rcases hinv x hx0 hselx with hmem | hcore
      · rcases List.mem_cons.mp hmem with rfl | hmem'
        · refine Or.inr ⟨?_, ?_⟩
          · intro _
            rw [processSeries_ac hbr]
            by_cases hout : hasOutstandingInstance x.id db
            · rw [if_pos hout]
              exact Or.inl hout
            · rw [if_neg hout]
              by_cases hmat : hasMaterializedDueDate x.id x.nextDueDate db
              · rw [if_pos hmat]
                exact Or.inr hmat
              · rw [if_neg hmat]
                exact Or.inl
                  (hasOutstandingInstance_materialize_self x x.nextDueDate now db)
          · intro hdup
            rw [hbr] at hdup
            simp at hdup
        · exact Or.inl hmem'
      · exact Or.inr (hcore.mono hext)
    | duplicate_on_schedule =>
      rw [processSeries_dup hbr] at hx ⊢
      by_cases hmove : (dupCatchUp r today now 500 r.nextDueDate db).1 =
          r.nextDueDate
      · rw [if_pos hmove] at hx ⊢
        have hspec := dupCatchUp_spec r today now 500 r.nextDueDate db
        have hx0 : x ∈ db.series := hspec.2.2.1 ▸ hx
        rcases hinv x hx0 hselx with hmem | hmem
        · rcases List.mem_cons.mp hmem with rfl | hmem'
          · have hbreak := hbrk x (List.mem_cons_self x l') hbr
            have hdue : ¬ dlt today
                (dupCatchUp x today now 500 x.nextDueDate db).1 := by
              rw [hmove]
              exact isSelectedSeries_due hselx
            obtain ⟨hmat, hnx⟩ := hspec.2.2.2.2 hbreak hdue
            rw [hmove] at hmat hnx
            refine Or.inr ⟨?_, fun _ => ⟨hmat, hnx⟩⟩
            intro hac
            rw [hbr] at hac
            simp at hac
          · exact Or.inl hmem'
        · exact Or.inr (hmem.mono hspec.2.1)
      · rw [if_neg hmove] at hx ⊢
        have hspec := dupCatchUp_spec r today now 500 r.nextDueDate db
        simp only at hx
        rw [hspec.2.2.1] at hx
        obtain ⟨x0, hx0, rfl⟩ := List.mem_map.mp hx
        by_cases hid0 : x0.id = r.id
        · rw [if_pos hid0] at hselx ⊢
          have hx0r : x0 = r := hpend r (List.mem_cons_self r l') x0 hx0 hid0
          subst hx0r
          have hbreak := hbrk x0 (List.mem_cons_self x0 l') hbr
          have hdue : ¬ dlt today
              (dupCatchUp x0 today now 500 x0.nextDueDate db).1 :=
            isSelectedSeries_due hselx
          obtain ⟨hmat, hnx⟩ := hspec.2.2.2.2 hbreak hdue
          refine Or.inr ⟨?_, fun _ => ⟨hmat, hnx⟩⟩
          intro hac
          simp only at hac
          rw [hbr] at hac
          simp at hac
        · rw [if_neg hid0] at hselx ⊢
          rcases hinv x0 hx0 hselx with hmem | hmem
          · rcases List.mem_cons.mp hmem with rfl | hmem'
            · exact absurd rfl hid0
            · exact Or.inl hmem'
          · refine Or.inr (hmem.mono ?_)
            obtain ⟨ext, he⟩ := hspec.2.1
            exact ⟨ext, he⟩

/-- After one reconciliation pass over a well-formed state, every
selected series row is settled (given that no catch-up chain ran out of
budget). -/
theorem sync_settles {u : Nat} {today : CalDate} {now : String} {db : Db}
    (hwf : WF db)
    (hfuel : ∀ r ∈ (migrateLegacyTaskRecurrencesForUser u today now db).series,
      isSelectedSeries u today r = true →
      r.recurrenceBehavior = Behavior.duplicate_on_schedule →
      (chainCursor r.recurrenceType r.recurrenceRule today 500
        r.nextDueDate).2 = true) :
    ∀ x ∈ (syncRecurrenceSeriesForUser u today now db).series,
      isSelectedSeries u today x = true →
      SettledCore (syncRecurrenceSeriesForUser u today now db) x := by
  have hwfm := WF_migrate hwf u today now
  apply syncFold_settles u today now
    ((migrateLegacyTaskRecurrencesForUser u today now db).series.filter
      (isSelectedSeries u today))
    (migrateLegacyTaskRecurrencesForUser u today now db)
  · exact ((List.filter_sublist _).map SeriesRow.id).nodup hwfm.2.1
  · intro r hr x hx hid
    exact seriesRow_eq_of_id_eq hwfm.2.1 hx (List.mem_of_mem_filter hr) hid
  · intro r hr
    exact List.of_mem_filter hr
  · intro r hr hb
    exact hfuel r (List.mem_of_mem_filter hr) (List.of_mem_filter hr) hb
  · intro x hx hsel
    exact Or.inl (List.mem_filter.mpr ⟨hx, hsel⟩)

/-! ### Task predicates preserved by the reconciliation pass -/

theorem dupCatchUp_tasks_pred (P : TaskRow → Prop)
    (hmk : ∀ (s : SeriesRow) (d : CalDate) (now : String) (tid : Nat),
      P (mkInstance s d now tid))
    (s : SeriesRow) (today : CalDate) (now : String) :
    ∀ (fuel : Nat) (c : CalDate) (db : Db), (∀ t ∈ db.tasks, P t) →
      ∀ t ∈ (dupCatchUp s today now fuel c db).2.tasks, P t := by
  intro fuel
  induction fuel with
  | zero => intro c db h; exact h
  | succ n ih =>
    intro c db h
    unfold dupCatchUp
    by_cases htop : dlt today c
    · simp only [if_pos htop]
      exact h
    · simp only [if_neg htop]
      have h1 : ∀ t ∈ (if hasMaterializedDueDate s.id c db then db
          else materializeSeries s c now db).tasks, P t := by
        split
        · exact h
        · intro t ht
          rw [materializeSeries_tasks] at ht
          rcases List.mem_append.mp ht with ht | ht
          · exact h t ht
          · simp only [List.mem_cons, List.not_mem_nil, or_false] at ht
            subst ht
            exact hmk s c now db.nextTaskId
      cases hnx : getNextTaskRecurrenceDate c s.recurrenceType s.recurrenceRule with
      | none => exact h1
      | some nx =>
        by_cases heq : nx = c
        · simp only [if_pos heq]
          exact h1
        · simp only [if_neg heq]
          exact ih nx _ h1

theorem processSeries_tasks_pred (P : TaskRow → Prop)
    (hmk : ∀ (s : SeriesRow) (d : CalDate) (now : String) (tid : Nat),
      P (mkInstance s d now tid))
    {db : Db} (h : ∀ t ∈ db.tasks, P t) (today : CalDate) (now : String)
    (s : SeriesRow) : ∀ t ∈ (processSeries today now db s).tasks, P t := by
  cases hb : s.recurrenceBehavior with
  | after_completion =>
    rw [processSeries_ac hb]
    split
    · exact h
    · split
      · exact h
      · intro t ht
        rw [materializeSeries_tasks] at ht
        rcases List.mem_append.mp ht with ht | ht
        · exact h t ht
        · simp only [List.mem_cons, List.not_mem_nil, or_false] at ht
          subst ht
          exact hmk s s.nextDueDate now db.nextTaskId
  | duplicate_on_schedule =>
    rw [processSeries_dup hb]
    have h1 := dupCatchUp_tasks_pred P hmk s today now 500 s.nextDueDate db h
    split
    · exact h1
    · exact h1

theorem syncFold_tasks_pred (P : TaskRow → Prop)
    (hmk : ∀ (s : SeriesRow) (d : CalDate) (now : String) (tid : Nat),
      P (mkInstance s d now tid)) (today : CalDate) (now : String) :
    ∀ (l : List SeriesRow) (db : Db), (∀ t ∈ db.tasks, P t) →
      ∀ t ∈ (l.foldl (processSeries today now) db).tasks, P t := by
  intro l
  induction l with
  | nil => intro db h; exact h
  | cons r l' ih =>
    intro db h
    rw [List.foldl_cons]
    exact ih _ (processSeries_tasks_pred P hmk h today now r)

/-- No legacy candidate exists after a reconciliation pass: migration
clears them all and materialization only creates non-candidates. -/
theorem sync_no_candidates (u : Nat) (today : CalDate) (now : String)
    (db : Db) :
    ∀ t ∈ (syncRecurrenceSeriesForUser u today now db).tasks,
      isLegacyCandidate u t = false := by
  unfold syncRecurrenceSeriesForUser
  apply syncFold_tasks_pred (fun t => isLegacyCandidate u t = false)
  · intro s d now' tid
    simp [isLegacyCandidate, mkInstance]
  · exact migrate_no_candidates u today now db

/-! ### Daily catch-up arithmetic -/

theorem dlt_asymm {a b : CalDate} (h : dlt a b) : ¬ dlt b a :=
  fun h2 => dlt_irrefl a (dlt_trans h h2)

theorem addDays_add (x : CalDate) (a b : Nat) :
    addDays x (a + b) = addDays (addDays x a) b := by
  induction b with
  | zero => rfl
  | succ k ih => rw [Nat.add_succ, addDays, ih, addDays]

theorem addDays_dlt_addDays (x : CalDate) {i j : Nat} (h : i < j) :
    dlt (addDays x i) (addDays x j) := by
  have hj : j = i + (j - i) := by omega
  rw [hj, addDays_add]
  exact addDays_dlt (addDays x i) (by omega)

theorem addDays_dle_addDays (x : CalDate) {i j : Nat} (h : i ≤ j) :
    dle (addDays x i) (addDays x j) := by
  rcases Nat.eq_or_lt_of_le h with rfl | h
  · exact dle_refl _
  · exact dle_of_dlt (addDays_dlt_addDays x h)

theorem addDays_one (y : CalDate) : addDays y 1 = nextDay y := by
  show addDays y (0 + 1) = nextDay y
  rw [addDays]
  rfl

theorem getNext_daily (c : CalDate) (rule : Option StoredRule) :
    getNextTaskRecurrenceDate c RType.daily rule = some (addDays c 1) := rfl

theorem map_range_succ_shift {β : Type} (f : Nat → β) (n : Nat) :
    (List.range (n + 1)).map f = f 0 :: (List.range n).map (fun k => f (k + 1)) := by
  rw [List.range_succ_eq_map, List.map_cons, List.map_map]
  rfl

theorem hasMaterializedDueDate_materialize (sid : Nat) (d' : CalDate)
    (s : SeriesRow) (d : CalDate) (now : String) (db : Db) :
    hasMaterializedDueDate sid d' (materializeSeries s d now db) =
      (hasMaterializedDueDate sid d' db || decide (s.id = sid ∧ d = d')) := by
  unfold hasMaterializedDueDate materializeSeries mkInstance
  simp only [List.any_append, List.any_cons, List.any_nil, Bool.or_false]
  congr 1
  simp

/-- The catch-up loop on a daily series that starts `m` days before
today, with none of the visited dates materialized yet: it materializes
one instance per day from the starting cursor through today (that is
`m + 1` instances) and leaves the cursor on the day after today. -/
theorem dupCatchUp_daily {s : SeriesRow}
    (hs : s.recurrenceType = RType.daily) (today : CalDate) (now : String) :
    ∀ (m : Nat) (fuel : Nat) (c : CalDate) (db : Db), m < fuel →
      today = addDays c m →
      (∀ k, k ≤ m → hasMaterializedDueDate s.id (addDays c k) db = false) →
      dupCatchUp s today now fuel c db =
        (addDays c (m + 1),
         { db with
           tasks := db.tasks ++ (List.range (m + 1)).map (fun k =>
             mkInstance s (addDays c k) now (db.nextTaskId + k))
           nextTaskId := db.nextTaskId + (m + 1) }) := by
  intro m
  induction m with
  | zero =>
    intro fuel c db hfuel htoday hmat
    have h0 : hasMaterializedDueDate s.id c db = false := by
      have := hmat 0 (Nat.le_refl 0)
      simpa [addDays] using this
    cases fuel with
    | zero => omega
    | succ f =>
      unfold dupCatchUp
      rw [if_neg (by rw [htoday]; exact dlt_irrefl (addDays c 0)), h0]
      simp only [Bool.false_eq_true, if_false, hs, getNext_daily]
      rw [if_neg (fun h => dlt_ne (addDays_dlt c (by omega)) h.symm)]
      have hstop : dupCatchUp s today now f (addDays c 1)
          (materializeSeries s c now db) =
          (addDays c 1, materializeSeries s c now db) := by
        cases f with
        | zero => rfl
        | succ f2 =>
          unfold dupCatchUp
          rw [if_pos (by rw [htoday]; exact addDays_dlt_addDays c (by omega))]
      rw [hstop]
      rfl
  | succ m ih =>
    intro fuel c db hfuel htoday hmat
    have h0 : hasMaterializedDueDate s.id c db = false := by
      have := hmat 0 (Nat.zero_le _)
      simpa [addDays] using this
    cases fuel with
    | zero => omega
    | succ f =>
      unfold dupCatchUp
      rw [if_neg (by
        rw [htoday]
        exact dlt_asymm (addDays_dlt_addDays c (by omega : 0 < m + 1)))]
      rw [h0]
      simp only [Bool.false_eq_true, if_false, hs, getNext_daily]
      rw [if_neg (fun h => dlt_ne (addDays_dlt c (by omega)) h.symm)]
      have hih := ih f (addDays c 1) (materializeSeries s c now db)
        (by omega)
        (by rw [htoday, ← addDays_add]; congr 1; omega)
        (by
          intro k hk
          rw [← addDays_add, hasMaterializedDueDate_materialize]
          rw [hmat (1 + k) (by omega)]
          simp only [Bool.false_or, decide_eq_false_iff_not]
          rintro ⟨-, habs⟩
          exact dlt_ne (addDays_dlt c (by omega : 1 ≤ 1 + k)) habs)
      rw [hih]
      refine Prod.ext ?_ ?_
      · simp only
        rw [← addDays_add]
        congr 1
        omega
      · simp only [materializeSeries, Db.mk.injEq]
        refine ⟨?_, trivial, by omega, trivial⟩
        conv_rhs => rw [map_range_succ_shift]
        rw [List.append_assoc, List.singleton_append]
        congr 1
        simp only [List.cons.injEq]
        refine ⟨rfl, ?_⟩
        apply List.map_congr_left
        intro k _
        have h1 : addDays (addDays c 1) k = addDays c (k + 1) := by
          rw [← addDays_add]
          congr 1
          omega
        have h2 : db.nextTaskId + 1 + k = db.nextTaskId + (k + 1) := by omega
        rw [h1, h2]

/-- The catch-up loop on a daily series that is so far behind that every
iteration of the budget fires: it spends the whole budget, materializing
one instance per budgeted iteration, and leaves the cursor `fuel` days
after the start — the remaining backlog is untouched. -/
theorem dupCatchUp_daily_fuelout {s : SeriesRow}
    (hs : s.recurrenceType = RType.daily) (today : CalDate) (now : String) :
    ∀ (fuel : Nat) (c : CalDate) (db : Db),
      (∀ k, k < fuel → dle (addDays c k) today) →
      (∀ k, k < fuel → hasMaterializedDueDate s.id (addDays c k) db = false) →
      dupCatchUp s today now fuel c db =
        (addDays c fuel,
         { db with
           tasks := db.tasks ++ (List.range fuel).map (fun k =>
             mkInstance s (addDays c k) now (db.nextTaskId + k))
           nextTaskId := db.nextTaskId + fuel }) := by
  intro fuel
  induction fuel with
  | zero =>
    intro c db _ _
    simp [dupCatchUp, addDays]
  | succ f ih =>
    intro c db hdue hmat
    have h0 : hasMaterializedDueDate s.id c db = false := by
      have := hmat 0 (by omega)
      simpa [addDays] using this
    unfold dupCatchUp
    rw [if_neg (not_dlt_iff_dle.mpr (by
      have := hdue 0 (by omega)
      simpa [addDays] using this))]
    rw [h0]
    simp only [Bool.false_eq_true, if_false, hs, getNext_daily]
    rw [if_neg (fun h => dlt_ne (addDays_dlt c (by omega)) h.symm)]
    have hih := ih (addDays c 1) (materializeSeries s c now db)
      (by
        intro k hk
        rw [← addDays_add]
        have := hdue (1 + k) (by omega)
        exact this)
      (by
        intro k hk
        rw [← addDays_add, hasMaterializedDueDate_materialize]
        rw [hmat (1 + k) (by omega)]
        simp only [Bool.false_or, decide_eq_false_iff_not]
        rintro ⟨-, habs⟩
        exact dlt_ne (addDays_dlt c (by omega : 1 ≤ 1 + k)) habs)
    rw [hih]
    refine Prod.ext ?_ ?_
    · simp only
      rw [← addDays_add]
      congr 1
      omega
    · simp only [materializeSeries, Db.mk.injEq]
      refine ⟨?_, trivial, by omega, trivial⟩
      conv_rhs => rw [map_range_succ_shift]
      rw [List.append_assoc, List.singleton_append]
      congr 1
      simp only [List.cons.injEq]
      refine ⟨rfl, ?_⟩
      apply List.map_congr_left
      intro k _
      have h1 : addDays (addDays c 1) k = addDays c (k + 1) := by
        rw [← addDays_add]
        congr 1
        omega
      have h2 : db.nextTaskId + 1 + k = db.nextTaskId + (k + 1) := by omega
      rw [h1, h2]

/-! ## Claim C1 -/

/-- C1 (amended): running `sync` twice in succession with no intervening
mutation leaves the state of the second run identical to the state after
the first — in particular no additional item instance is inserted —
provided the state is well-formed (unique, monotone primary keys) and no
`duplicate_on_schedule` series due in the pass needs more than the
500-iteration catch-up budget (its pure cursor chain exits through a
break).  Without the budget proviso the property fails, see the
counterexample. -/
theorem c1_sync_twice_fixpoint (u : Nat) (today : CalDate) (n1 n2 : String)
    (db : Db) (hwf : WF db)
    (hfuel : ∀ r ∈ (migrateLegacyTaskRecurrencesForUser u today n1 db).series,
      isSelectedSeries u today r = true →
      r.recurrenceBehavior = Behavior.duplicate_on_schedule →
      (chainCursor r.recurrenceType r.recurrenceRule today 500
        r.nextDueDate).2 = true) :
    syncRecurrenceSeriesForUser u today n2
        (syncRecurrenceSeriesForUser u today n1 db) =
      syncRecurrenceSeriesForUser u today n1 db :=
  sync_fixpoint (sync_settles hwf hfuel) (sync_no_candidates u today n1 db) n2

/-- Witness for C1: a daily series two days behind settles in one pass,
and the second pass is the identity. -/
theorem c1_sync_twice_fixpoint_witness :
    syncRecurrenceSeriesForUser 7 ⟨2024, 1, 3⟩ "m2"
        (syncRecurrenceSeriesForUser 7 ⟨2024, 1, 3⟩ "m1" c1wDb) =
      syncRecurrenceSeriesForUser 7 ⟨2024, 1, 3⟩ "m1" c1wDb :=
  c1_sync_twice_fixpoint 7 ⟨2024, 1, 3⟩ "m1" "m2" c1wDb (by decide) (by decide)

set_option maxRecDepth 4000 in
theorem c1cex_date : addDays ⟨2024, 1, 1⟩ 500 = c1cexToday := by
  have e1 : addDays (⟨2024, 1, 1⟩ : CalDate) 100 = ⟨2024, 4, 10⟩ := by decide
  have e2 : addDays (⟨2024, 4, 10⟩ : CalDate) 100 = ⟨2024, 7, 19⟩ := by decide
  have e3 : addDays (⟨2024, 7, 19⟩ : CalDate) 100 = ⟨2024, 10, 27⟩ := by decide
  have e4 : addDays (⟨2024, 10, 27⟩ : CalDate) 100 = ⟨2025, 2, 4⟩ := by decide
  have e5 : addDays (⟨2025, 2, 4⟩ : CalDate) 100 = ⟨2025, 5, 15⟩ := by decide
  have h : (500 : Nat) = 100 + (100 + (100 + (100 + 100))) := by norm_num
  rw [h, addDays_add, e1, addDays_add, e2, addDays_add, e3, addDays_add, e4, e5]
  rfl

theorem c1cex_first_sync :
    syncRecurrenceSeriesForUser 7 c1cexToday "n1" c1cexDb = c1st1 := by
  have h1 : syncRecurrenceSeriesForUser 7 c1cexToday "n1" c1cexDb =
      processSeries c1cexToday "n1" c1cexDb c1cexSeries := by
    show ((migrateLegacyTaskRecurrencesForUser 7 c1cexToday "n1"
        c1cexDb).series.filter (isSelectedSeries 7 c1cexToday)).foldl
        (processSeries c1cexToday "n1")
        (migrateLegacyTaskRecurrencesForUser 7 c1cexToday "n1" c1cexDb) = _
    rw [show migrateLegacyTaskRecurrencesForUser 7 c1cexToday "n1" c1cexDb =
      c1cexDb from rfl]
    rw [show c1cexDb.series.filter (isSelectedSeries 7 c1cexToday) =
      [c1cexSeries] from rfl]
    rw [List.foldl_cons, List.foldl_nil]
  rw [h1, processSeries_dup rfl]
  have hloop := dupCatchUp_daily_fuelout
    (show c1cexSeries.recurrenceType = RType.daily from rfl) c1cexToday "n1"
    500 ⟨2024, 1, 1⟩ c1cexDb
    (fun k hk => by
      rw [← c1cex_date]
      exact addDays_dle_addDays _ (by omega))
    (fun k _ => rfl)
  rw [show c1cexSeries.nextDueDate = (⟨2024, 1, 1⟩ : CalDate) from rfl, hloop,
    c1cex_date]
  rw [if_neg (by decide)]
  simp only [c1cexDb, c1cexSeries, c1st1, c1st1Tasks, c1updSeries,
    List.nil_append, Nat.zero_add, Nat.add_zero]
  try rfl

theorem c1cex_st1_unmaterialized :
    ∀ d : CalDate, d = c1cexToday →
      hasMaterializedDueDate 1 d c1st1 = false := by
  intro d hd
  subst hd
  unfold hasMaterializedDueDate
  rw [List.any_eq_false]
  intro t ht
  simp only [c1st1, c1st1Tasks] at ht
  obtain ⟨k, hk, rfl⟩ := List.mem_map.mp ht
  simp only [List.mem_range] at hk
  simp only [mkInstance, decide_eq_true_eq, Option.some.injEq]
  rintro ⟨-, habs, -⟩
  rw [← c1cex_date] at habs
  exact dlt_ne (addDays_dlt_addDays (⟨2024, 1, 1⟩ : CalDate) hk) habs

theorem c1cex_second_sync :
    syncRecurrenceSeriesForUser 7 c1cexToday "n2" c1st1 =
      { tasks := c1st1Tasks ++ [mkInstance c1updSeries c1cexToday "n2" 500]
        series := [c1updSeries2]
        nextTaskId := 501
        nextSeriesId := 2 } := by
  have hmig : migrateLegacyTaskRecurrencesForUser 7 c1cexToday "n2" c1st1 =
      c1st1 := by
    apply migrate_fixpoint
    intro t ht
    simp only [c1st1, c1st1Tasks] at ht
    obtain ⟨k, _, rfl⟩ := List.mem_map.mp ht
    simp [isLegacyCandidate, mkInstance]
  have h1 : syncRecurrenceSeriesForUser 7 c1cexToday "n2" c1st1 =
      (c1st1.series.filter (isSelectedSeries 7 c1cexToday)).foldl
        (processSeries c1cexToday "n2") c1st1 := by
    show ((migrateLegacyTaskRecurrencesForUser 7 c1cexToday "n2"
        c1st1).series.filter (isSelectedSeries 7 c1cexToday)).foldl
        (processSeries c1cexToday "n2")
        (migrateLegacyTaskRecurrencesForUser 7 c1cexToday "n2" c1st1) = _
    rw [hmig]
  have hsel : c1st1.series.filter (isSelectedSeries 7 c1cexToday) =
      [c1updSeries] := rfl
  rw [h1, hsel, List.foldl_cons, List.foldl_nil, processSeries_dup rfl]
  have hloop := dupCatchUp_daily
    (show c1updSeries.recurrenceType = RType.daily from rfl) c1cexToday "n2"
    0 500 c1cexToday c1st1 (by omega) rfl
    (fun k hk => by
      have hk0 : k = 0 := by omega
      subst hk0
      exact c1cex_st1_unmaterialized _ rfl)
  rw [show c1updSeries.nextDueDate = c1cexToday from rfl, hloop]
  rw [if_neg (by decide)]
  simp only [c1st1, c1st1Tasks, c1updSeries, c1updSeries2, c1cexSeries,
    Nat.zero_add, Nat.add_zero]
  try rfl

/-- Counterexample to C1 as stated: with a daily `duplicate_on_schedule`
series 500 days behind, the first sync exhausts the 500-iteration budget
(materializing 500 instances, due dates 2024-01-01 up to 2025-05-14) and
the second sync inserts one more instance (due 2025-05-15 = today). -/
theorem c1_sync_twice_counterexample :
    (syncRecurrenceSeriesForUser 7 c1cexToday "n2"
        (syncRecurrenceSeriesForUser 7 c1cexToday "n1" c1cexDb)).tasks.length =
        501 ∧
      (syncRecurrenceSeriesForUser 7 c1cexToday "n1" c1cexDb).tasks.length =
        500 := by
  rw [c1cex_first_sync, c1cex_second_sync]
  constructor
  · simp [c1st1Tasks]
  · simp [c1st1, c1st1Tasks]

theorem hasOutstandingInstance_eq_FF (sid : Nat) (db : Db) :
    hasOutstandingInstance sid db =
      (FF sid db).any (fun t =>
        decide (t.deletedAt = Option.none ∧ t.status ≠ TaskStatus.done)) := by
  unfold hasOutstandingInstance FF
  rw [List.any_filter]
  congr 1
  funext t
  simp [Bool.decide_and, and_assoc]

theorem hasMaterializedDueDate_eq_FF (sid : Nat) (d : CalDate) (db : Db) :
    hasMaterializedDueDate sid d db =
      (FF sid db).any (fun t =>
        decide (t.dueDate = some d ∧ t.deletedAt = Option.none)) := by
  unfold hasMaterializedDueDate FF
  rw [List.any_filter]
  congr 1
  funext t
  simp [Bool.decide_and, and_assoc]

theorem FF_materialize_self (s : SeriesRow) (d : CalDate) (now : String)
    (db : Db) :
    FF s.id (materializeSeries s d now db) =
      FF s.id db ++ [mkInstance s d now db.nextTaskId] := by
  unfold FF materializeSeries
  rw [List.filter_append]
  congr 1
  simp [mkInstance]

theorem FF_materialize_other {s : SeriesRow} {sid : Nat} (h : s.id ≠ sid)
    (d : CalDate) (now : String) (db : Db) :
    FF sid (materializeSeries s d now db) = FF sid db := by
  unfold FF materializeSeries
  rw [List.filter_append]
  simp [mkInstance, h]

theorem FF_dupCatchUp_other {s : SeriesRow} {sid : Nat} (h : s.id ≠ sid)
    (today : CalDate) (now : String) :
    ∀ (fuel : Nat) (c : CalDate) (db : Db),
      FF sid (dupCatchUp s today now fuel c db).2 = FF sid db := by
  intro fuel
  induction fuel with
  | zero => intro c db; rfl
  | succ n ih =>
    intro c db
    unfold dupCatchUp
    by_cases htop : dlt today c
    · simp only [if_pos htop]
    · simp only [if_neg htop]
      have h1 : FF sid (if hasMaterializedDueDate s.id c db then db
          else materializeSeries s c now db) = FF sid db := by
        split
        · rfl
        · exact FF_materialize_other h c now db
      cases getNextTaskRecurrenceDate c s.recurrenceType s.recurrenceRule with
      | none => exact h1
      | some nx =>
        by_cases heq : nx = c
        · simp only [if_pos heq]
          exact h1
        · simp only [if_neg heq]
          rw [ih nx _, h1]

theorem FF_processSeries_other {r : SeriesRow} {sid : Nat} (h : r.id ≠ sid)
    (today : CalDate) (now : String) (db : Db) :
    FF sid (processSeries today now db r) = FF sid db := by
  cases hb : r.recurrenceBehavior with
  | after_completion =>
    rw [processSeries_ac hb]
    split
    · rfl
    · split
      · rfl
      · exact FF_materialize_other h r.nextDueDate now db
  | duplicate_on_schedule =>
    rw [processSeries_dup hb]
    split
    · exact FF_dupCatchUp_other h today now 500 r.nextDueDate db
    · exact FF_dupCatchUp_other h today now 500 r.nextDueDate db

theorem FF_syncFold_other (sid : Nat) (today : CalDate) (now : String) :
    ∀ (l : List SeriesRow) (db : Db), (∀ r ∈ l, r.id ≠ sid) →
      FF sid (l.foldl (processSeries today now) db) = FF sid db := by
  intro l
  induction l with
  | nil => intro db _; rfl
  | cons r l' ih =>
    intro db hl
    rw [List.foldl_cons, ih _ (fun r' hr' => hl r' (List.mem_cons_of_mem r hr')),
      FF_processSeries_other (hl r (List.mem_cons_self r l')) today now db]

theorem taskRow_eq_of_id_eq {db : Db}
    (hnd : (db.tasks.map TaskRow.id).Nodup) {a b : TaskRow}
    (ha : a ∈ db.tasks) (hb : b ∈ db.tasks) (hid : a.id = b.id) : a = b :=
  List.inj_on_of_nodup_map hnd ha hb hid

theorem filter_map_eq {α : Type} {l : List α} {f : α → α} {p : α → Bool}
    (h : ∀ x ∈ l, (p (f x) = false ∧ p x = false) ∨ f x = x) :
    (l.map f).filter p = l.filter p := by
  induction l with
  | nil => rfl
  | cons a l' ih =>
    have ih' := ih (fun x hx => h x (List.mem_cons_of_mem a hx))
    rcases h a (List.mem_cons_self a l') with ⟨h1, h2⟩ | h1
    · simp only [List.map_cons, List.filter_cons, h1, h2]
      exact ih'
    · simp only [List.map_cons, List.filter_cons, h1]
      cases p a
      · exact ih'
      · rw [ih']

theorem migrateStep_nextSeriesId_le (today : CalDate) (now : String)
    (db : Db) (row : TaskRow) :
    db.nextSeriesId ≤ (migrateStep today now db row).nextSeriesId := by
  unfold migrateStep
  split
  · exact Nat.le_refl _
  · simp only
    omega

theorem FF_migrateStep {sid : Nat} {db : Db} {row : TaskRow}
    (hsid : sid < db.nextSeriesId)
    (hrow : ∀ t ∈ db.tasks, t.id = row.id →
      t.recurrenceSeriesId = Option.none)
    (today : CalDate) (now : String) :
    FF sid (migrateStep today now db row) = FF sid db := by
  unfold migrateStep
  split
  · rfl
  · unfold FF
    simp only
    apply filter_map_eq
    intro t ht
    by_cases hid : t.id = row.id
    · rw [if_pos hid]
      left
      constructor
      · simp only [migratedTaskPatch, mkMigratedSeries, decide_eq_false_iff_not,
          Option.some.injEq]
        omega
      · rw [hrow t ht hid]
        simp
    · rw [if_neg hid]
      right
      rfl

theorem FF_migrateFold {sid : Nat} (today : CalDate) (now : String) :
    ∀ (l : List TaskRow) (db : Db), sid < db.nextSeriesId →
      ((l.map TaskRow.id).Nodup) →
      (∀ r ∈ l, ∀ t ∈ db.tasks, t.id = r.id →
        t.recurrenceSeriesId = Option.none) →
      FF sid (l.foldl (migrateStep today now) db) = FF sid db := by
  intro l
  induction l with
  | nil => intro db _ _ _; rfl
  | cons r l' ih =>
    intro db hsid hnd hpend
    have hnd0 := List.nodup_cons.mp
      (show (r.id :: l'.map TaskRow.id).Nodup from hnd)
    rw [List.foldl_cons]
    rw [ih _ (Nat.lt_of_lt_of_le hsid (migrateStep_nextSeriesId_le today now db r))
      hnd0.2 ?_]
    · exact FF_migrateStep hsid (hpend r (List.mem_cons_self r l')) today now
    · intro r' hr' t ht hid
      revert ht
      unfold migrateStep
      split
      · intro ht
        exact hpend r' (List.mem_cons_of_mem r hr') t ht hid
      · intro ht
        simp only [List.mem_map] at ht
        obtain ⟨t0, ht0, rfl⟩ := ht
        by_cases hid0 : t0.id = r.id
        · rw [if_pos hid0] at hid ⊢
          exfalso
          simp only [migratedTaskPatch] at hid
          rw [hid0] at hid
          exact hnd0.1 (hid ▸ List.mem_map_of_mem TaskRow.id hr')
        · rw [if_neg hid0] at hid ⊢
          exact hpend r' (List.mem_cons_of_mem r hr') t0 ht0 hid

theorem FF_migrate {u sid : Nat} {db : Db} (hwf : WF db)
    (hsid : sid < db.nextSeriesId) (today : CalDate) (now : String) :
    FF sid (migrateLegacyTaskRecurrencesForUser u today now db) =
      FF sid db := by
  apply FF_migrateFold today now (legacyRows u db) db hsid
  · exact ((List.filter_sublist _).map TaskRow.id).nodup hwf.1
  · intro r hr t ht hid
    have hr' := List.mem_filter.mp hr
    have ht' : t = r := taskRow_eq_of_id_eq hwf.1 ht hr'.1 hid
    subst ht'
    have := hr'.2
    unfold isLegacyCandidate at this
    simp only [decide_eq_true_eq] at this
    exact this.2.2.1

theorem processSeries_series_mem_other {x r : SeriesRow} {db : Db}
    (hne : x.id ≠ r.id) (hx : x ∈ db.series) (today : CalDate)
    (now : String) : x ∈ (processSeries today now db r).series := by
  rcases processSeries_series_cases today now db r with hcase | ⟨_, hcase⟩
  · rw [hcase]
    exact hx
  · rw [hcase]
    exact List.mem_map.mpr ⟨x, hx, by rw [if_neg hne]⟩

theorem syncFold_series_mem_other (today : CalDate) (now : String) :
    ∀ (l : List SeriesRow) (db : Db) (x : SeriesRow), x ∈ db.series →
      (∀ r ∈ l, x.id ≠ r.id) →
      x ∈ (l.foldl (processSeries today now) db).series := by
  intro l
  induction l with
  | nil => intro db x hx _; exact hx
  | cons r l' ih =>
    intro db x hx hl
    rw [List.foldl_cons]
    exact ih _ x
      (processSeries_series_mem_other (hl r (List.mem_cons_self r l')) hx
        today now)
      (fun r' hr' => hl r' (List.mem_cons_of_mem r hr'))

theorem sync_eq_foldl (u : Nat) (today : CalDate) (now : String) (db : Db) :
    syncRecurrenceSeriesForUser u today now db =
      ((migrateLegacyTaskRecurrencesForUser u today now db).series.filter
        (isSelectedSeries u today)).foldl (processSeries today now)
        (migrateLegacyTaskRecurrencesForUser u today now db) := rfl

theorem isSelectedSeries_intro {u : Nat} {today : CalDate} {s : SeriesRow}
    (hu : s.userId = u) (hdel : s.deletedAt = Option.none)
    (hact : s.active = true) (hdue : dle s.nextDueDate today) :
    isSelectedSeries u today s = true := by
  unfold isSelectedSeries
  simp only [decide_eq_true_eq]
  exact ⟨hu, hdel, hact, hdue⟩

/-- Common setup for claims about one selected series `s` of a
well-formed state: the reconciliation pass is a fold that processes `s`
exactly once, with the rows before and after it carrying other ids. -/
theorem sync_split_at {u : Nat} {today : CalDate} {s : SeriesRow} {db : Db}
    (hwf : WF db) (hs : s ∈ db.series)
    (hsel : isSelectedSeries u today s = true) (now : String) :
    ∃ l1 l2,
      (migrateLegacyTaskRecurrencesForUser u today now db).series.filter
        (isSelectedSeries u today) = l1 ++ s :: l2 ∧
      (∀ r ∈ l1, r.id ≠ s.id) ∧ (∀ r ∈ l2, r.id ≠ s.id) := by
  have hwfm := WF_migrate hwf u today now
  have hsm : s ∈ (migrateLegacyTaskRecurrencesForUser u today now db).series :=
    migrate_series_mem hs u today now
  have hmem : s ∈ (migrateLegacyTaskRecurrencesForUser u today now
      db).series.filter (isSelectedSeries u today) :=
    List.mem_filter.mpr ⟨hsm, hsel⟩
  obtain ⟨l1, l2, hsplit⟩ := List.append_of_mem hmem
  have hnd : ((l1 ++ s :: l2).map SeriesRow.id).Nodup := by
    rw [← hsplit]
    exact ((List.filter_sublist _).map SeriesRow.id).nodup hwfm.2.1
  rw [List.map_append, List.map_cons] at hnd
  have hout := (List.nodup_cons.mp (List.nodup_middle.mp hnd)).1
  refine ⟨l1, l2, hsplit, ?_, ?_⟩
  · intro r hr habs
    exact hout (by
      rw [List.mem_append]
      exact Or.inl (habs ▸ List.mem_map_of_mem SeriesRow.id hr))
  · intro r hr habs
    exact hout (by
      rw [List.mem_append]
      exact Or.inr (habs ▸ List.mem_map_of_mem SeriesRow.id hr))

/-! ## Claim C3 -/

/-- C3: for an active, non-deleted `after_completion` series due today or
earlier: when an outstanding (non-done) instance exists, the pass creates
no instance for the series; otherwise, when its `nextDueDate` is not yet
materialized, the pass creates exactly one new open instance due on
`nextDueDate`, carrying the series' title, description, priority and
project, linked through `recurrenceSeriesId`. -/
theorem c3_after_completion_materialization (u : Nat) (today : CalDate)
    (now : String) (db : Db) (s : SeriesRow) (hwf : WF db)
    (hs : s ∈ db.series) (hu : s.userId = u)
    (hdel : s.deletedAt = Option.none) (hact : s.active = true)
    (hdue : dle s.nextDueDate today)
    (hb : s.recurrenceBehavior = Behavior.after_completion) :
    (hasOutstandingInstance s.id db = true →
      FF s.id (syncRecurrenceSeriesForUser u today now db) = FF s.id db) ∧
    (hasOutstandingInstance s.id db = false →
      hasMaterializedDueDate s.id s.nextDueDate db = false →
      ∃ tn, FF s.id (syncRecurrenceSeriesForUser u today now db) =
          FF s.id db ++ [tn] ∧
        tn.status = TaskStatus.open_ ∧ tn.dueDate = some s.nextDueDate ∧
        tn.title = s.title ∧ tn.description = s.description ∧
        tn.priority = s.priority ∧ tn.projectId = s.projectId ∧
        tn.recurrenceSeriesId = some s.id) := by
  have hsel := isSelectedSeries_intro hu hdel hact hdue
  obtain ⟨l1, l2, hsplit, hl1, hl2⟩ := sync_split_at hwf hs hsel now
  have hsid : s.id < db.nextSeriesId := hwf.2.2.2 s hs
  have hFFm : FF s.id (migrateLegacyTaskRecurrencesForUser u today now db) =
      FF s.id db := FF_migrate hwf hsid today now
  have hsync : syncRecurrenceSeriesForUser u today now db =
      l2.foldl (processSeries today now)
        (processSeries today now
          (l1.foldl (processSeries today now)
            (migrateLegacyTaskRecurrencesForUser u today now db)) s) := by
    rw [sync_eq_foldl, hsplit, List.foldl_append, List.foldl_cons]
  have hFFA : FF s.id (l1.foldl (processSeries today now)
      (migrateLegacyTaskRecurrencesForUser u today now db)) = FF s.id db := by
    rw [FF_syncFold_other s.id today now l1 _ hl1, hFFm]
  have houtA : hasOutstandingInstance s.id (l1.foldl (processSeries today now)
      (migrateLegacyTaskRecurrencesForUser u today now db)) =
      hasOutstandingInstance s.id db := by
    rw [hasOutstandingInstance_eq_FF, hasOutstandingInstance_eq_FF, hFFA]
  have hmatA : hasMaterializedDueDate s.id s.nextDueDate
      (l1.foldl (processSeries today now)
        (migrateLegacyTaskRecurrencesForUser u today now db)) =
      hasMaterializedDueDate s.id s.nextDueDate db := by
    rw [hasMaterializedDueDate_eq_FF, hasMaterializedDueDate_eq_FF, hFFA]
  constructor
  · intro hout
    rw [hsync, FF_syncFold_other s.id today now l2 _ hl2,
      processSeries_ac hb, if_pos (houtA.trans hout), hFFA]
  · intro hout hmat
    refine ⟨mkInstance s s.nextDueDate now
      (l1.foldl (processSeries today now)
        (migrateLegacyTaskRecurrencesForUser u today now db)).nextTaskId,
      ?_, rfl, rfl, rfl, rfl, rfl, rfl, rfl⟩
    rw [hsync, FF_syncFold_other s.id today now l2 _ hl2,
      processSeries_ac hb,
      if_neg (by rw [houtA, hout]; simp),
      if_neg (by rw [hmatA, hmat]; simp),
      FF_materialize_self, hFFA]

/-- Witness for C3 at a concrete state with no instances: the pass
creates exactly one open instance for the series. -/
theorem c3_after_completion_materialization_witness :
    (hasOutstandingInstance c3wSeries.id c3wDb = true →
      FF c3wSeries.id (syncRecurrenceSeriesForUser 3 ⟨2024, 2, 1⟩ "w" c3wDb) =
        FF c3wSeries.id c3wDb) ∧
    (hasOutstandingInstance c3wSeries.id c3wDb = false →
      hasMaterializedDueDate c3wSeries.id c3wSeries.nextDueDate c3wDb = false →
      ∃ tn, FF c3wSeries.id
          (syncRecurrenceSeriesForUser 3 ⟨2024, 2, 1⟩ "w" c3wDb) =
          FF c3wSeries.id c3wDb ++ [tn] ∧
        tn.status = TaskStatus.open_ ∧
        tn.dueDate = some c3wSeries.nextDueDate ∧
        tn.title = c3wSeries.title ∧ tn.description = c3wSeries.description ∧
        tn.priority = c3wSeries.priority ∧
        tn.projectId = c3wSeries.projectId ∧
        tn.recurrenceSeriesId = some c3wSeries.id) :=
  c3_after_completion_materialization 3 ⟨2024, 2, 1⟩ "w" c3wDb c3wSeries
    (by decide) (by decide) rfl rfl rfl (by decide) rfl

/-! ## Claim C2 -/

/-- C2 (amended): a `duplicate_on_schedule` series with daily cadence
whose `nextDueDate` is exactly 10 days before today and which has no
pre-existing instances gets exactly 11 instances from one sync call (one
per day from `nextDueDate` through today inclusive), and its
`nextDueDate` advances to the day after today. -/
theorem c2_daily_catchup_eleven (u : Nat) (today : CalDate) (now : String)
    (db : Db) (s : SeriesRow) (hwf : WF db) (hs : s ∈ db.series)
    (hu : s.userId = u) (hdel : s.deletedAt = Option.none)
    (hact : s.active = true)
    (hb : s.recurrenceBehavior = Behavior.duplicate_on_schedule)
    (ht : s.recurrenceType = RType.daily)
    (htoday : today = addDays s.nextDueDate 10)
    (hnoinst : FF s.id db = []) :
    (FF s.id (syncRecurrenceSeriesForUser u today now db)).length = 11 ∧
    { s with nextDueDate := addDays s.nextDueDate 11, updatedAt := now } ∈
      (syncRecurrenceSeriesForUser u today now db).series ∧
    addDays s.nextDueDate 11 = nextDay today := by
  have hdue : dle s.nextDueDate today := by
    rw [htoday]
    exact addDays_dle_addDays s.nextDueDate (show 0 ≤ 10 by omega)
  have hsel := isSelectedSeries_intro hu hdel hact hdue
  obtain ⟨l1, l2, hsplit, hl1, hl2⟩ := sync_split_at hwf hs hsel now
  have hsid : s.id < db.nextSeriesId := hwf.2.2.2 s hs
  have hFFm : FF s.id (migrateLegacyTaskRecurrencesForUser u today now db) =
      FF s.id db := FF_migrate hwf hsid today now
  have hFFA : FF s.id (l1.foldl (processSeries today now)
      (migrateLegacyTaskRecurrencesForUser u today now db)) = [] := by
    rw [FF_syncFold_other s.id today now l1 _ hl1, hFFm, hnoinst]
  have hmatA : ∀ d, hasMaterializedDueDate s.id d
      (l1.foldl (processSeries today now)
        (migrateLegacyTaskRecurrencesForUser u today now db)) = false := by
    intro d
    rw [hasMaterializedDueDate_eq_FF, hFFA]
    rfl
  have hloop := dupCatchUp_daily ht today now 10 500 s.nextDueDate
    (l1.foldl (processSeries today now)
      (migrateLegacyTaskRecurrencesForUser u today now db))
    (by omega) htoday (fun k _ => hmatA _)
  have hne : ¬ ((addDays s.nextDueDate (10 + 1)) = s.nextDueDate) := by
    intro h
    exact dlt_ne (addDays_dlt s.nextDueDate (by omega : 1 ≤ 10 + 1)) h.symm
  have hsync : syncRecurrenceSeriesForUser u today now db =
      l2.foldl (processSeries today now)
        (processSeries today now
          (l1.foldl (processSeries today now)
            (migrateLegacyTaskRecurrencesForUser u today now db)) s) := by
    rw [sync_eq_foldl, hsplit, List.foldl_append, List.foldl_cons]
  have hc1 : (dupCatchUp s today now 500 s.nextDueDate
      (l1.foldl (processSeries today now)
        (migrateLegacyTaskRecurrencesForUser u today now db))).1 =
      addDays s.nextDueDate (10 + 1) := by
    rw [hloop]
  have hc2tasks : (dupCatchUp s today now 500 s.nextDueDate
      (l1.foldl (processSeries today now)
        (migrateLegacyTaskRecurrencesForUser u today now db))).2.tasks =
      (l1.foldl (processSeries today now)
        (migrateLegacyTaskRecurrencesForUser u today now db)).tasks ++
        (List.range (10 + 1)).map (fun k =>
          mkInstance s (addDays s.nextDueDate k) now
            ((l1.foldl (processSeries today now)
              (migrateLegacyTaskRecurrencesForUser u today now
                db)).nextTaskId + k)) := by
    rw [hloop]
  have hc2series : (dupCatchUp s today now 500 s.nextDueDate
      (l1.foldl (processSeries today now)
        (migrateLegacyTaskRecurrencesForUser u today now db))).2.series =
      (l1.foldl (processSeries today now)
        (migrateLegacyTaskRecurrencesForUser u today now db)).series :=
    (dupCatchUp_spec s today now 500 s.nextDueDate _).2.2.1
  rw [hsync, processSeries_dup hb, hc1, if_neg hne]
  refine ⟨?_, ?_, by
    rw [htoday, show (11 : Nat) = 10 + 1 from rfl, addDays_add, addDays_one]⟩
  · rw [FF_syncFold_other s.id today now l2 _ hl2]
    unfold FF
    simp only
    rw [hc2tasks, List.filter_append,
      show List.filter (fun t =>
          decide (t.recurrenceSeriesId = some s.id))
        (l1.foldl (processSeries today now)
          (migrateLegacyTaskRecurrencesForUser u today now db)).tasks =
        ([] : List TaskRow) from hFFA,
      List.nil_append,
      List.filter_eq_self.mpr ?_]
    · simp
    · intro t ht
      obtain ⟨k, _, rfl⟩ := List.mem_map.mp ht
      simp [mkInstance]
  · have hsA : s ∈ (l1.foldl (processSeries today now)
        (migrateLegacyTaskRecurrencesForUser u today now db)).series := by
      apply syncFold_series_mem_other today now l1 _ s
        (migrate_series_mem hs u today now)
      intro r hr h
      exact hl1 r hr h.symm
    apply syncFold_series_mem_other today now l2
    · show _ ∈ ({ (dupCatchUp s today now 500 s.nextDueDate
        (l1.foldl (processSeries today now)
          (migrateLegacyTaskRecurrencesForUser u today now db))).2 with
        series := ((dupCatchUp s today now 500 s.nextDueDate
          (l1.foldl (processSeries today now)
            (migrateLegacyTaskRecurrencesForUser u today now
              db))).2.series.map (fun x =>
                if x.id = s.id then
                  { x with
                    nextDueDate := addDays s.nextDueDate (10 + 1)
                    updatedAt := now }
                else x)) } : Db).series
      simp only
      rw [hc2series]
      exact List.mem_map.mpr ⟨s, hsA, by rw [if_pos rfl]⟩
    · intro r hr h
      exact hl2 r hr h.symm

/-- Witness for C2 at a concrete state: 2024-03-01 through 2024-03-11 is
11 instances, and the cursor lands on 2024-03-12. -/
theorem c2_daily_catchup_eleven_witness :
    (FF c2wSeries.id
      (syncRecurrenceSeriesForUser 5 ⟨2024, 3, 11⟩ "w" c2wDb)).length = 11 ∧
    { c2wSeries with
      nextDueDate := addDays c2wSeries.nextDueDate 11
      updatedAt := "w" } ∈
      (syncRecurrenceSeriesForUser 5 ⟨2024, 3, 11⟩ "w" c2wDb).series ∧
    addDays c2wSeries.nextDueDate 11 = nextDay ⟨2024, 3, 11⟩ :=
  c2_daily_catchup_eleven 5 ⟨2024, 3, 11⟩ "w" c2wDb c2wSeries (by decide)
    (by decide) rfl rfl rfl rfl rfl (by decide) rfl

set_option maxRecDepth 4000 in
/-- Counterexample to C2 as stated: with `nextDueDate` exactly 10 days
before today (2024-03-01 against 2024-03-11) and no pre-existing
instances, one sync call materializes 11 instances for the series, not
10 — the loop covers both endpoints, 2024-03-01 through 2024-03-11. -/
theorem c2_ten_day_counterexample :
    (FF c2cexSeries.id
      (syncRecurrenceSeriesForUser 5 ⟨2024, 3, 11⟩ "n" c2cexDb)).length = 11 ∧
      c2cexDb.tasks.length = 0 := by
  decide

/-! ## Claims C4 and C5 -/

theorem migrateFold_mkSeries (today : CalDate) (now : String) :
    ∀ (l : List TaskRow) (db : Db) (r : TaskRow), r ∈ l →
      r.recurrenceType ≠ RType.none →
      ∃ sid, mkMigratedSeries today now sid r ∈
        (l.foldl (migrateStep today now) db).series := by
  intro l
  induction l with
  | nil =>
    intro db r hr
    simp at hr
  | cons a l' ih =>
    intro db r hr htype
    rw [List.foldl_cons]
    rcases List.mem_cons.mp hr with rfl | hr'
    · refine ⟨db.nextSeriesId, ?_⟩
      apply migrateFold_series_mem
      unfold migrateStep
      rw [if_neg htype]
      simp
    · exact ih _ r hr' htype

/-- C4: for every legacy item selected by migration, the created series
carries the item's title, description, priority, project, kind,
behavior and rule, is active, and its `nextDueDate` is: for a done item,
the next occurrence computed from max(due-anchor, today) — falling back
to that maximum when the rule yields none — and for a not-done item the
due-anchor itself, where the due-anchor is the item's due date when
valid and today otherwise; and migration inserts no item instance. -/
theorem c4_migration_series_anchor (u : Nat) (today : CalDate) (now : String)
    (db : Db) (r : TaskRow) (hr : r ∈ db.tasks) (hu : r.userId = u)
    (hdel : r.deletedAt = Option.none)
    (hsid : r.recurrenceSeriesId = Option.none)
    (htype : r.recurrenceType ≠ RType.none) :
    (∃ snew ∈ (migrateLegacyTaskRecurrencesForUser u today now db).series,
      snew.title = r.title ∧ snew.description = r.description ∧
      snew.priority = r.priority ∧ snew.projectId = r.projectId ∧
      snew.recurrenceType = r.recurrenceType ∧
      snew.recurrenceBehavior = r.recurrenceBehavior ∧
      snew.recurrenceRule = r.recurrenceRule ∧ snew.active = true ∧
      snew.nextDueDate =
        (if r.status = TaskStatus.done then
          (getNextTaskRecurrenceDate
            (if dle today (r.dueDate.getD today) then r.dueDate.getD today
              else today) r.recurrenceType r.recurrenceRule).getD
            (if dle today (r.dueDate.getD today) then r.dueDate.getD today
              else today)
        else r.dueDate.getD today)) ∧
    (migrateLegacyTaskRecurrencesForUser u today now db).tasks.length =
      db.tasks.length := by
  refine ⟨?_, migrate_tasks_length u today now db⟩
  have hmem : r ∈ legacyRows u db := by
    apply List.mem_filter.mpr
    refine ⟨hr, ?_⟩
    unfold isLegacyCandidate
    simp only [decide_eq_true_eq]
    exact ⟨hu, hdel, hsid, htype⟩
  obtain ⟨sid, hmemS⟩ := migrateFold_mkSeries today now (legacyRows u db) db
    r hmem htype
  refine ⟨mkMigratedSeries today now sid r, hmemS,
    rfl, rfl, rfl, rfl, rfl, rfl, rfl, rfl, ?_⟩
  show (let dueAnchor := match r.dueDate with
          | some d => d
          | Option.none => today
        let completionAnchor := if dlt today dueAnchor then dueAnchor else today
        if r.status = TaskStatus.done then
          (getNextTaskRecurrenceDate completionAnchor r.recurrenceType
            r.recurrenceRule).getD completionAnchor
        else dueAnchor) = _
  have hda : (match r.dueDate with
      | some d => d
      | Option.none => today) = r.dueDate.getD today := by
    cases r.dueDate
    · rfl
    · rfl
  have hca : (if dlt today (r.dueDate.getD today) then r.dueDate.getD today
      else today) =
      (if dle today (r.dueDate.getD today) then r.dueDate.getD today
      else today) := by
    by_cases h1 : dlt today (r.dueDate.getD today)
    · rw [if_pos h1, if_pos (dle_of_dlt h1)]
    · rw [if_neg h1]
      by_cases h2 : dle today (r.dueDate.getD today)
      · rw [if_pos h2]
        rcases h2 with h2 | h2
        · exact absurd h2 h1
        · exact h2
      · rw [if_neg h2]
  simp only [hda, hca]

/-- C5: migrating twice is migrating once — after a first migration pass
no task of the state is a legacy candidate any more (its series link is
set or its inline kind cleared), so a re-run performs no series insert
and no item update at all. -/
theorem c5_migration_idempotent (u : Nat) (today : CalDate) (n1 n2 : String)
    (db : Db) :
    (∀ t ∈ (migrateLegacyTaskRecurrencesForUser u today n1 db).tasks,
      isLegacyCandidate u t = false) ∧
    migrateLegacyTaskRecurrencesForUser u today n2
        (migrateLegacyTaskRecurrencesForUser u today n1 db) =
      migrateLegacyTaskRecurrencesForUser u today n1 db :=
  ⟨migrate_no_candidates u today n1 db,
    migrate_fixpoint (migrate_no_candidates u today n1 db) today n2⟩

/-- Witness for C4: an open legacy daily item due 2024-05-01 produces a
series with `nextDueDate = 2024-05-01` and no new item row. -/
theorem c4_migration_series_anchor_witness :
    (∃ snew ∈ (migrateLegacyTaskRecurrencesForUser 2 ⟨2024, 5, 20⟩ "w"
        c4wDb).series,
      snew.title = c4wTask.title ∧ snew.description = c4wTask.description ∧
      snew.priority = c4wTask.priority ∧ snew.projectId = c4wTask.projectId ∧
      snew.recurrenceType = c4wTask.recurrenceType ∧
      snew.recurrenceBehavior = c4wTask.recurrenceBehavior ∧
      snew.recurrenceRule = c4wTask.recurrenceRule ∧ snew.active = true ∧
      snew.nextDueDate =
        (if c4wTask.status = TaskStatus.done then
          (getNextTaskRecurrenceDate
            (if dle ⟨2024, 5, 20⟩ (c4wTask.dueDate.getD ⟨2024, 5, 20⟩) then
              c4wTask.dueDate.getD ⟨2024, 5, 20⟩ else ⟨2024, 5, 20⟩)
            c4wTask.recurrenceType c4wTask.recurrenceRule).getD
            (if dle ⟨2024, 5, 20⟩ (c4wTask.dueDate.getD ⟨2024, 5, 20⟩) then
              c4wTask.dueDate.getD ⟨2024, 5, 20⟩ else ⟨2024, 5, 20⟩)
        else c4wTask.dueDate.getD ⟨2024, 5, 20⟩)) ∧
    (migrateLegacyTaskRecurrencesForUser 2 ⟨2024, 5, 20⟩ "w"
      c4wDb).tasks.length = c4wDb.tasks.length :=
  c4_migration_series_anchor 2 ⟨2024, 5, 20⟩ "w" c4wDb c4wTask (by decide)
    rfl rfl rfl (by decide)

/-- Witness for C5 at a concrete state with one legacy item. -/
theorem c5_migration_idempotent_witness :
    (∀ t ∈ (migrateLegacyTaskRecurrencesForUser 6 ⟨2024, 5, 2⟩ "w1"
        c5wDb).tasks, isLegacyCandidate 6 t = false) ∧
    migrateLegacyTaskRecurrencesForUser 6 ⟨2024, 5, 2⟩ "w2"
        (migrateLegacyTaskRecurrencesForUser 6 ⟨2024, 5, 2⟩ "w1" c5wDb) =
      migrateLegacyTaskRecurrencesForUser 6 ⟨2024, 5, 2⟩ "w1" c5wDb :=
  c5_migration_idempotent 6 ⟨2024, 5, 2⟩ "w1" "w2" c5wDb

/-! ## Claims C6 and C7 -/

/-- C6: across one reconciliation pass, every series row's `nextDueDate`
only moves forward or stays equal — it never regresses, including when
the next occurrence computation yields none or fails to advance. -/
theorem c6_nextDueDate_never_regresses (u : Nat) (today : CalDate)
    (now : String) (db : Db) (hwf : WF db) :
    ∀ s0 ∈ db.series,
      ∃ s1 ∈ (syncRecurrenceSeriesForUser u today now db).series,
        s1.id = s0.id ∧ dle s0.nextDueDate s1.nextDueDate := by
  intro s0 hs0
  have hwfm := WF_migrate hwf u today now
  have hs0m : s0 ∈ (migrateLegacyTaskRecurrencesForUser u today now
      db).series := migrate_series_mem hs0 u today now
  rw [sync_eq_foldl]
  rcases syncFold_series_master today now
      ((migrateLegacyTaskRecurrencesForUser u today now db).series.filter
        (isSelectedSeries u today))
      (migrateLegacyTaskRecurrencesForUser u today now db)
      (((List.filter_sublist _).map SeriesRow.id).nodup hwfm.2.1)
      (fun r hr x hx hid =>
        seriesRow_eq_of_id_eq hwfm.2.1 hx (List.mem_of_mem_filter hr) hid)
      s0 hs0m with h | ⟨_, _, hmem⟩
  · exact ⟨s0, h, rfl, dle_refl _⟩
  · exact ⟨_, hmem, rfl, chainCursor_dle s0.recurrenceType s0.recurrenceRule
      today 500 s0.nextDueDate⟩

/-- C7: an `after_completion` series row is left entirely unchanged by
the reconciliation pass — in particular its `nextDueDate` is never
advanced there. -/
theorem c7_after_completion_series_frame (u : Nat) (today : CalDate)
    (now : String) (db : Db) (hwf : WF db) :
    ∀ s ∈ db.series, s.recurrenceBehavior = Behavior.after_completion →
      s ∈ (syncRecurrenceSeriesForUser u today now db).series := by
  intro s hs hb
  have hwfm := WF_migrate hwf u today now
  have hsm : s ∈ (migrateLegacyTaskRecurrencesForUser u today now db).series :=
    migrate_series_mem hs u today now
  rw [sync_eq_foldl]
  rcases syncFold_series_master today now
      ((migrateLegacyTaskRecurrencesForUser u today now db).series.filter
        (isSelectedSeries u today))
      (migrateLegacyTaskRecurrencesForUser u today now db)
      (((List.filter_sublist _).map SeriesRow.id).nodup hwfm.2.1)
      (fun r hr x hx hid =>
        seriesRow_eq_of_id_eq hwfm.2.1 hx (List.mem_of_mem_filter hr) hid)
      s hsm with h | ⟨_, hdup, _⟩
  · exact h
  · rw [hb] at hdup
    simp at hdup

/-- Witness for C6 at a concrete state. -/
theorem c6_nextDueDate_never_regresses_witness :
    ∃ s1 ∈ (syncRecurrenceSeriesForUser 9 ⟨2024, 6, 10⟩ "w" c6wDb).series,
      s1.id = c6wSeries.id ∧ dle c6wSeries.nextDueDate s1.nextDueDate :=
  c6_nextDueDate_never_regresses 9 ⟨2024, 6, 10⟩ "w" c6wDb (by decide)
    c6wSeries (by decide)

/-- Witness for C7 at a concrete state: a due `after_completion` series
row survives the pass untouched even while an instance is created. -/
theorem c7_after_completion_series_frame_witness :
    c7wSeries ∈ (syncRecurrenceSeriesForUser 9 ⟨2024, 6, 5⟩ "w" c7wDb).series :=
  c7_after_completion_series_frame 9 ⟨2024, 6, 5⟩ "w" c7wDb (by decide)
    c7wSeries (by decide) rfl

/-! ## Claim C8 -/

theorem rolloverCond_after_reopen (u : Nat) (today : CalDate) (now : String)
    (t : TaskRow) :
    rolloverCond u today
      { t with status := TaskStatus.open_, updatedAt := now } = false := by
  unfold rolloverCond
  simp

/-- C8: the rollover bulk update reopens exactly the user's
non-soft-deleted done items that carry a legacy inline recurrence kind
and a due date at or before today; it creates no item rows, touches no
series rows, and running it again immediately changes nothing. -/
theorem c8_rollover_reopen (u : Nat) (today : CalDate) (n1 n2 : String)
    (db : Db) :
    (releaseDueRecurringTasksForUser u today n1 db).series = db.series ∧
    (releaseDueRecurringTasksForUser u today n1 db).tasks.length =
      db.tasks.length ∧
    (∀ t ∈ db.tasks, rolloverCond u today t = true →
      { t with status := TaskStatus.open_, updatedAt := n1 } ∈
        (releaseDueRecurringTasksForUser u today n1 db).tasks) ∧
    (∀ t ∈ db.tasks, rolloverCond u today t = false →
      t ∈ (releaseDueRecurringTasksForUser u today n1 db).tasks) ∧
    (∀ t' ∈ (releaseDueRecurringTasksForUser u today n1 db).tasks,
      ∃ t ∈ db.tasks,
        (rolloverCond u today t = true ∧
          t' = { t with status := TaskStatus.open_, updatedAt := n1 }) ∨
        (rolloverCond u today t = false ∧ t' = t)) ∧
    releaseDueRecurringTasksForUser u today n2
        (releaseDueRecurringTasksForUser u today n1 db) =
      releaseDueRecurringTasksForUser u today n1 db := by
  refine ⟨rfl, by simp [releaseDueRecurringTasksForUser], ?_, ?_, ?_, ?_⟩
  · intro t ht hc
    unfold releaseDueRecurringTasksForUser
    simp only
    refine List.mem_map.mpr ⟨t, ht, ?_⟩
    rw [if_pos hc]
  · intro t ht hc
    unfold releaseDueRecurringTasksForUser
    simp only
    refine List.mem_map.mpr ⟨t, ht, ?_⟩
    rw [hc]
    simp
  · intro t' ht'
    unfold releaseDueRecurringTasksForUser at ht'
    simp only at ht'
    obtain ⟨t, ht, rfl⟩ := List.mem_map.mp ht'
    refine ⟨t, ht, ?_⟩
    cases hc : rolloverCond u today t
    · right
      exact ⟨rfl, by simp⟩
    · left
      exact ⟨rfl, by simp⟩
  · unfold releaseDueRecurringTasksForUser
    simp only [List.map_map, Db.mk.injEq]
    refine ⟨?_, trivial, trivial, trivial⟩
    apply List.map_congr_left
    intro t _
    simp only [Function.comp_apply]
    cases hc : rolloverCond u today t
    · simp [hc]
    · simp [rolloverCond_after_reopen]

/-- Witness for C8 at a concrete state with one reopenable legacy item
and one plain done item. -/
theorem c8_rollover_reopen_witness :
    (releaseDueRecurringTasksForUser 4 ⟨2024, 4, 3⟩ "w1" c8wDb).series =
      c8wDb.series ∧
    (releaseDueRecurringTasksForUser 4 ⟨2024, 4, 3⟩ "w1" c8wDb).tasks.length =
      c8wDb.tasks.length ∧
    (∀ t ∈ c8wDb.tasks, rolloverCond 4 ⟨2024, 4, 3⟩ t = true →
      { t with status := TaskStatus.open_, updatedAt := "w1" } ∈
        (releaseDueRecurringTasksForUser 4 ⟨2024, 4, 3⟩ "w1" c8wDb).tasks) ∧
    (∀ t ∈ c8wDb.tasks, rolloverCond 4 ⟨2024, 4, 3⟩ t = false →
      t ∈ (releaseDueRecurringTasksForUser 4 ⟨2024, 4, 3⟩ "w1" c8wDb).tasks) ∧
    (∀ t' ∈ (releaseDueRecurringTasksForUser 4 ⟨2024, 4, 3⟩ "w1" c8wDb).tasks,
      ∃ t ∈ c8wDb.tasks,
        (rolloverCond 4 ⟨2024, 4, 3⟩ t = true ∧
          t' = { t with status := TaskStatus.open_, updatedAt := "w1" }) ∨
        (rolloverCond 4 ⟨2024, 4, 3⟩ t = false ∧ t' = t)) ∧
    releaseDueRecurringTasksForUser 4 ⟨2024, 4, 3⟩ "w2"
        (releaseDueRecurringTasksForUser 4 ⟨2024, 4, 3⟩ "w1" c8wDb) =
      releaseDueRecurringTasksForUser 4 ⟨2024, 4, 3⟩ "w1" c8wDb :=
  c8_rollover_reopen 4 ⟨2024, 4, 3⟩ "w1" "w2" c8wDb

/-! ## Claim C9 -/

/-- C9: a request carrying a custom recurrence rule that fails parsing —
its interval outside [1,365] or its unit not day/week/month (`hparse`) —
is rejected by both the create handler (for a custom-kind series) and
the update handler with an error response, and the database state is
returned untouched in both cases. -/
theorem c9_custom_rule_validation (u sid : Nat) (body : SeriesBody)
    (projects : List ProjectRow) (now : String) (db : Db)
    (hparse : parseTaskCustomRecurrenceRule body.recurrenceRule = Option.none)
    (htype : body.recurrenceType = FieldV.val SType.custom)
    (hrule : ∃ r, body.recurrenceRule = FieldV.val r) :
    (∃ m, postRecurrence u body projects now db = HRes.err db m) ∧
    (∃ m, putRecurrence u sid body projects now db = HRes.err db m) := by
  constructor
  · unfold postRecurrence
    cases hb : postBasicError body with
    | some m => exact ⟨m, rfl⟩
    | none =>
      cases hp : resolveProject u body.projectId projects with
      | error m => exact ⟨m, rfl⟩
      | ok pid =>
        have hres : postRuleResolve body = Except.error
            "recurrenceRule is required for custom recurrence and must include interval (1-365) and unit (day|week|month)" := by
          unfold postRuleResolve
          rw [if_pos htype, hparse]
        rw [hres]
        exact ⟨_, rfl⟩
  · unfold putRecurrence
    cases hb : putBasicError body with
    | some m => exact ⟨m, rfl⟩
    | none =>
      cases hf : db.series.find? (fun s =>
          decide (s.id = sid ∧ s.userId = u ∧ s.deletedAt = Option.none)) with
      | none => exact ⟨_, rfl⟩
      | some existing =>
        cases hp : resolveProject u body.projectId projects with
        | error m => exact ⟨m, rfl⟩
        | ok pid =>
          obtain ⟨r, hr⟩ := hrule
          rw [hr] at hparse
          rw [hr]
          refine ⟨"recurrenceRule must include interval (1-365) and unit (day|week|month)", ?_⟩
          show (match parseTaskCustomRecurrenceRule (FieldV.val r) with
            | Option.none =>
                HRes.err db
                  "recurrenceRule must include interval (1-365) and unit (day|week|month)"
            | some r2 =>
                putFinish sid body pid existing
                  (some (serializeTaskCustomRecurrenceRule r2)) now db) = _
          rw [hparse]

/-- Witness for C9: interval 400 is rejected at creation and at update
time, leaving the state untouched. -/
theorem c9_custom_rule_validation_witness :
    (∃ m, postRecurrence 8 c9wBody [] "w" c9wDb = HRes.err c9wDb m) ∧
    (∃ m, putRecurrence 8 5 c9wBody [] "w" c9wDb = HRes.err c9wDb m) :=
  c9_custom_rule_validation 8 5 c9wBody [] "w" c9wDb (by decide) rfl
    ⟨RuleInput.obj 400 UnitInput.day, rfl⟩

/-! ## Claim C10 -/

/-- C10: every instance materialized by the reconciliation engine is
created with inline kind `none`, behavior `after_completion`, null rule,
null `recurrenceProcessedAt`, status open and the generating series' id
as its series link; every task of a synced state is either a task of the
migrated state or of that shape; and a task of inline kind `none` is
neither a legacy-migration candidate nor a rollover-reopen candidate. -/
theorem c10_materialized_instance_shape (u : Nat) (today : CalDate)
    (now : String) (db : Db) :
    (∀ (s : SeriesRow) (d : CalDate) (n2 : String) (tid : Nat),
      (mkInstance s d n2 tid).recurrenceType = RType.none ∧
      (mkInstance s d n2 tid).recurrenceBehavior =
        Behavior.after_completion ∧
      (mkInstance s d n2 tid).recurrenceRule = Option.none ∧
      (mkInstance s d n2 tid).recurrenceProcessedAt = Option.none ∧
      (mkInstance s d n2 tid).status = TaskStatus.open_ ∧
      (mkInstance s d n2 tid).recurrenceSeriesId = some s.id) ∧
    (∀ t ∈ (syncRecurrenceSeriesForUser u today now db).tasks,
      t ∈ (migrateLegacyTaskRecurrencesForUser u today now db).tasks ∨
        (t.recurrenceType = RType.none ∧
          t.recurrenceBehavior = Behavior.after_completion ∧
          t.recurrenceRule = Option.none ∧
          t.recurrenceProcessedAt = Option.none ∧
          t.status = TaskStatus.open_ ∧
          ∃ sid, t.recurrenceSeriesId = some sid)) ∧
    (∀ (u2 : Nat) (d2 : CalDate) (t : TaskRow),
      t.recurrenceType = RType.none →
      isLegacyCandidate u2 t = false ∧ rolloverCond u2 d2 t = false) := by
  refine ⟨fun s d n2 tid => ⟨rfl, rfl, rfl, rfl, rfl, rfl⟩, ?_, ?_⟩
  · unfold syncRecurrenceSeriesForUser
    apply syncFold_tasks_pred
    · intro s d n2 tid
      exact Or.inr ⟨rfl, rfl, rfl, rfl, rfl, s.id, rfl⟩
    · intro t ht
      exact Or.inl ht
  · intro u2 d2 t htype
    constructor
    · unfold isLegacyCandidate
      simp [htype]
    · unfold rolloverCond
      simp [htype]

/-- Witness for C10 at a concrete state. -/
theorem c10_materialized_instance_shape_witness :
    (∀ (s : SeriesRow) (d : CalDate) (n2 : String) (tid : Nat),
      (mkInstance s d n2 tid).recurrenceType = RType.none ∧
      (mkInstance s d n2 tid).recurrenceBehavior =
        Behavior.after_completion ∧
      (mkInstance s d n2 tid).recurrenceRule = Option.none ∧
      (mkInstance s d n2 tid).recurrenceProcessedAt = Option.none ∧
      (mkInstance s d n2 tid).status = TaskStatus.open_ ∧
      (mkInstance s d n2 tid).recurrenceSeriesId = some s.id) ∧
    (∀ t ∈ (syncRecurrenceSeriesForUser 1 ⟨2024, 7, 2⟩ "w" c10wDb).tasks,
      t ∈ (migrateLegacyTaskRecurrencesForUser 1 ⟨2024, 7, 2⟩ "w"
          c10wDb).tasks ∨
        (t.recurrenceType = RType.none ∧
          t.recurrenceBehavior = Behavior.after_completion ∧
          t.recurrenceRule = Option.none ∧
          t.recurrenceProcessedAt = Option.none ∧
          t.status = TaskStatus.open_ ∧
          ∃ sid, t.recurrenceSeriesId = some sid)) ∧
    (∀ (u2 : Nat) (d2 : CalDate) (t : TaskRow),
      t.recurrenceType = RType.none →
      isLegacyCandidate u2 t = false ∧ rolloverCond u2 d2 t = false) :=
  c10_materialized_instance_shape 1 ⟨2024, 7, 2⟩ "w" c10wDb

end Dispatch
